import Mathlib

/-!
# Local remeshing passes and the tetrahedron overlap predicate

A shallow embedding of `src/prism/local_operations/remesh_pass.cpp`
(`wildflip_pass`, `wildsplit_pass`) and of
`src/prism/predicates/tetrahedron_overlap.cpp`
(`tetrahedron_tetrahedron_overlap`).

Conventions of the embedding.

* C++ `int` values (vertex ids, face ids, local edge indices, valences,
  validator codes) are `Int`.  The arithmetic on valences (the valence
  counters and the valence test, where a value is squared) is reduced to
  32 bits (`wrap32`): signed overflow is undefined in C++ and wraps around in
  two's complement on the usual targets.  Index arithmetic and the diagnostic
  counters (`global_tick`, `rejection_steps`), which stay within the size of
  the mesh and the number of iterations, are exact.
  Indexing a vector with a negative or too large index is undefined in the
  source; here a read yields a default value and a write does nothing.
* `double` values are exact rationals (`ℚ`).  The Euclidean norm is not a
  rational function, so it is a field of the collaborator record `Ext`.
* Functions that the passes call but that live in other translation units
  (adjacency builder, validator, flip / split / shift primitives, reference
  surface query, sizing field, triangle quality) are fields of `Ext`.
  Arguments that the passes hand over by reference and read again afterwards
  are returned by the corresponding field.
* `std::priority_queue` is a list kept in descending tuple order: `top` is the
  head, `pop` the tail, `push` an ordered insertion.
* The `while (!queue.empty())` loops take a fuel argument; `none` means the
  fuel ran out before the queue was empty.
* Logging is dropped.  Each loop iteration appends the dequeued entry and what
  happened to it to a `trace`, which the source does not have; nothing reads
  the trace back.
-/

namespace prism

/-! ## Basic data -/

/-- An index triple (`Vec3i`): a face, or a row of `FF` / `FFi`. -/
abbrev Vec3i := Int × Int × Int

/-- A point (`Vec3d`). -/
abbrev Vec3d := ℚ × ℚ × ℚ

/-- Component `t[i]`; the source only uses `i ∈ {0, 1, 2}`. -/
def Vec3i.get (t : Vec3i) (i : Int) : Int :=
  if i = 0 then t.1 else if i = 1 then t.2.1 else t.2.2

/-- Assignment `t[i] = x`. -/
def Vec3i.set (t : Vec3i) (i : Int) (x : Int) : Vec3i :=
  if i = 0 then (x, t.2.1, t.2.2)
  else if i = 1 then (t.1, x, t.2.2)
  else if i = 2 then (t.1, t.2.1, x)
  else t

/-- Read `l[i]` for an `int` index. -/
def getI {α : Type} [Inhabited α] (l : List α) (i : Int) : α :=
  if i < 0 then default else l.getD i.toNat default

/-- Read `l[i]` for an `int` index, `none` when the index is out of range. -/
def getI? {α : Type} (l : List α) (i : Int) : Option α :=
  if i < 0 then none else l[i.toNat]?

/-- Update position `n` of a list with `f`. -/
def modifyNth {α : Type} (f : α → α) : List α → Nat → List α
  | [], _ => []
  | x :: xs, 0 => f x :: xs
  | x :: xs, n + 1 => x :: modifyNth f xs n

/-- Update `l[i]` with `f` for an `int` index. -/
def modifyI {α : Type} (l : List α) (i : Int) (f : α → α) : List α :=
  if i < 0 then l else modifyNth f l i.toNat

/-- Write `l[i] = x` for an `int` index. -/
def setI {α : Type} (l : List α) (i : Int) (x : α) : List α :=
  modifyI l i (fun _ => x)

/-- Entry `M(f, e)` of a matrix stored as a list of rows of three. -/
def matGet (M : List Vec3i) (f e : Int) : Int := (getI M f).get e

/-- Assignment `M(f, e) = x`. -/
def matSet (M : List Vec3i) (f e : Int) (x : Int) : List Vec3i :=
  modifyI M f (fun row => row.set e x)

def Vec3d.add (a b : Vec3d) : Vec3d := (a.1 + b.1, a.2.1 + b.2.1, a.2.2 + b.2.2)

def Vec3d.sub (a b : Vec3d) : Vec3d := (a.1 - b.1, a.2.1 - b.2.1, a.2.2 - b.2.2)

def Vec3d.smul (c : ℚ) (a : Vec3d) : Vec3d := (c * a.1, c * a.2.1, c * a.2.2)

/-! ## Priority queue -/

/-- The tuple `(length, f, e, u0, u1)` stored in the queue. -/
abbrev QEntry := ℚ × Int × Int × Int × Int

def QEntry.l (q : QEntry) : ℚ := q.1
def QEntry.f (q : QEntry) : Int := q.2.1
def QEntry.e (q : QEntry) : Int := q.2.2.1
def QEntry.u0 (q : QEntry) : Int := q.2.2.2.1
def QEntry.u1 (q : QEntry) : Int := q.2.2.2.2

/-- The lexicographic `operator<` of `std::tuple`. -/
def tuple_lt (a b : QEntry) : Bool :=
  decide (a.1 < b.1) || (decide (a.1 = b.1) &&
    (decide (a.2.1 < b.2.1) || (decide (a.2.1 = b.2.1) &&
      (decide (a.2.2.1 < b.2.2.1) || (decide (a.2.2.1 = b.2.2.1) &&
        (decide (a.2.2.2.1 < b.2.2.2.1) || (decide (a.2.2.2.1 = b.2.2.2.1) &&
          decide (a.2.2.2.2 < b.2.2.2.2))))))))

/-- The call `queue.push(x)`: the queue is kept in descending order. -/
def queue_push (x : QEntry) : List QEntry → List QEntry
  | [] => [x]
  | y :: ys => if tuple_lt x y then y :: queue_push x ys else x :: y :: ys

/-- Several pushes, in order. -/
def queue_push_all (q : List QEntry) (xs : List QEntry) : List QEntry :=
  xs.foldl (fun acc x => queue_push x acc) q

/-! ## The cage and its collaborators -/

/-- Modelled from the spec: the spatial hash grid of
`prism/spatial-hash/AABB_hash.hpp` (not among the sources), as the list of the
face ids it holds, each with the three corners it was inserted with. -/
structure GridItem where
  id : Int
  a : Vec3d
  b : Vec3d
  c : Vec3d
deriving DecidableEq

/-- Modelled from the spec: the grid as the list of what was inserted. -/
abbrev HashGrid := List GridItem

/-- Modelled from the spec: `remove_element(face id)`. -/
def HashGrid.remove_element (g : HashGrid) (f : Int) : HashGrid :=
  g.filter (fun x => x.id != f)

/-- Modelled from the spec: `insert_triangles(layer positions, face list, face-id subset)`. -/
def HashGrid.insert_triangles (g : HashGrid) (V : List Vec3d) (F : List Vec3i)
    (fids : List Int) : HashGrid :=
  g ++ fids.map (fun f =>
    { id := f, a := getI V ((getI F f).get 0), b := getI V ((getI F f).get 1),
      c := getI V ((getI F f).get 2) })

/-- The fields of `PrismCage` that the passes touch. -/
structure PrismCage where
  base : List Vec3d
  mid : List Vec3d
  top : List Vec3d
  F : List Vec3i
  track_ref : List (List Int)
  feature_edges : List (Int × Int)
  top_grid : Option HashGrid
  base_grid : Option HashGrid
deriving DecidableEq

/-- The data fields of `RemeshOptions` (its `sizing_field` callback is in `Ext`). -/
structure RemeshOptions where
  distortion_bound : ℚ
  target_adjustment : List ℚ
  split_improve_quality : Bool
deriving DecidableEq

/-- The three vertex arrays `base`, `mid`, `top`. -/
abbrev Layers := List Vec3d × List Vec3d × List Vec3d

/-- The face list with its adjacency tables `F`, `FF`, `FFi`. -/
abbrev Conn := List Vec3i × List Vec3i × List Vec3i

/-- The functions the two passes call into.  The reference surface
(`pc.ref`) is constant during a pass and is part of the closures. -/
structure Ext where
  /-- The Eigen call `x.norm()`. -/
  norm : Vec3d → ℚ
  /-- The adjacency builder, returning `(FF, FFi)`. -/
  triangle_triangle_adjacency : List Vec3i → List Vec3i × List Vec3i
  /-- The flip validator `attempt_flip(base, V, top, F, ..., track_ref,
  distortion_bound, f0, f1, e0, e1, v0, v1, checker)`: the code and the
  `checker` it fills (shifts, tracks). -/
  attempt_flip : Layers → List Vec3i → List (List Int) → ℚ →
    Int → Int → Int → Int → Int → Int → Int × List Int × List (List Int)
  /-- The primitive `edge_flip(F, FF, FFi, f, e)`: its result and the three
  tables as it leaves them. -/
  edge_flip : Conn → Int → Int → Bool × Conn
  /-- The primitive `shift_left(fids, shifts, F, FF, FFi)`. -/
  shift_left : List Int → List Int → Conn → Conn
  /-- The callback `option.sizing_field`. -/
  sizing_field : Vec3d → ℚ
  /-- The reference surface query `pc.ref.aabb->segment_query(a, b)`. -/
  segment_query : Vec3d → Vec3d → Option Vec3d
  /-- The split validator `attempt_split(base, V, top, F, ..., track_ref,
  distortion_bound, improve_quality, f0, f1, e0, e1, {b, m, t}, checker)`:
  the code, the `checker` it fills (face ids, shifts, tracks) and the three
  vertex arrays as it leaves them (the pass reads `V.size()` afterwards). -/
  attempt_split : Layers → List Vec3i → List (List Int) → ℚ → Bool →
    Int → Int → Int → Int → Vec3d × Vec3d × Vec3d →
    Int × (List Int × List Int × List (List Int)) × Layers
  /-- The primitive `edge_split(vx, F, FF, FFi, f, e)`. -/
  edge_split : Int → Conn → Int → Int → Conn
  /-- The energy `prism::energy::triangle_quality`. -/
  triangle_quality : Vec3d × Vec3d × Vec3d → ℚ

/-! ## `wildflip_pass` -/

/-- The set `skip_edges`: every feature edge as `(min, max)`. -/
def skip_edges (feature_edges : List (Int × Int)) : List (Int × Int) :=
  feature_edges.map (fun p => (min p.1 p.2, max p.1 p.2))

/-- The pairs `(f, e)` in the order the enqueue loops visit them. -/
def seed_order (n : Nat) : List (Int × Int) :=
  (List.range n).flatMap (fun f => [((f : Int), 0), ((f : Int), 1), ((f : Int), 2)])

/-- One round of the inner enqueue loop of `wildflip_pass` at `(f, e)`; the
state is the entries pushed so far (latest first) and the `flags` matrix. -/
def flip_seed_step (X : Ext) (F FF FFi : List Vec3i) (V : List Vec3d)
    (skip : List (Int × Int)) (st : List QEntry × List Vec3i) (fe : Int × Int) :
    List QEntry × List Vec3i :=
  let f := fe.1
  let e := fe.2
  let v0 := matGet F f e
  let v1 := matGet F f ((e + 1) % 3)
  if v0 > v1 ∨ matGet st.2 f e = 1 then st
  else if matGet FF f e = -1 then st
  else if (v0, v1) ∈ skip then st
  else
    ((X.norm (Vec3d.sub (getI V v0) (getI V v1)), f, e, v0, v1) :: st.1,
      matSet (matSet st.2 f e 1) (matGet FF f e) (matGet FFi f e) 1)

/-- The enqueue loop of `wildflip_pass`: the entries it pushes, in push order. -/
def flip_seed (X : Ext) (F FF FFi : List Vec3i) (V : List Vec3d)
    (feature_edges : List (Int × Int)) : List QEntry :=
  ((seed_order F.length).foldl (flip_seed_step X F FF FFi V (skip_edges feature_edges))
    ([], List.replicate F.length (0, 0, 0))).1.reverse

/-- The value a 32-bit `int` holds after an operation whose exact result is
`x`: two's complement wrap-around.  Signed overflow is undefined in C++; this
is what the usual targets compute. -/
def wrap32 (x : Int) : Int := (x + 2147483648) % 4294967296 - 2147483648

/-- The lambda `valence_energy`: `(i - 6) * (i - 6)` is computed on 32-bit
`int` and then added to the `double` `e`; the sum of four such values is
exact in a `double`. -/
def valence_energy (i0 i1 i2 i3 : Int) : Int :=
  [i0, i1, i2, i3].foldl (fun e i => e + wrap32 (wrap32 (i - 6) * wrap32 (i - 6))) 0

/-- The search loop of `push_to_queue`: the last local index holding `v`, or `-1`. -/
def find_local (face : Vec3i) (v : Int) : Int :=
  [0, 1, 2].foldl (fun e i => if face.get i = v then i else e) (-1)

/-- The lambda `push_to_queue` of `wildflip_pass`: the entry it pushes, if any.
Reading `F[f]` with `f` out of range is undefined in the source, and when `v`
is not a corner of the face the source logs an error and then indexes with
`-1`, which is undefined too; no push is made in these two cases. -/
def flip_push_to_queue (X : Ext) (F : List Vec3i) (V : List Vec3d) (f v : Int) :
    Option QEntry :=
  match getI? F f with
  | none => none
  | some face =>
    let e := find_local face v
    if e = -1 then none
    else
      let u0 := face.get e
      let u1 := face.get ((e + 1) % 3)
      if u0 > u1 then none
      else some (X.norm (Vec3d.sub (getI V u1) (getI V u0)), f, e, u0, u1)

/-- What the loops keep besides counters: the cage, the adjacency tables, the
valence counters and the queue. -/
structure FlipCore where
  pc : PrismCage
  FF : List Vec3i
  FFi : List Vec3i
  valence : List Int
  queue : List QEntry
deriving DecidableEq

/-- How one dequeued entry of `wildflip_pass` ends. -/
inductive FlipOutcome where
  /-- `f == -1 || FF[f][e] == -1`, or `f1 == -1`. -/
  | boundary
  /-- The face no longer holds the endpoints of the entry. -/
  | stale
  /-- The valence test said `continue`. -/
  | gate
  /-- The validator was called and returned `flag > 0`. -/
  | rejected (flag : Int)
  /-- The validator accepted and `edge_flip` returned false. -/
  | flip_failed
  /-- The flip was committed; the entries pushed afterwards, in order. -/
  | accepted (pushed : List QEntry)
deriving DecidableEq

/-- The hash grid update of an accepted flip. -/
def flip_grids (pc : PrismCage) (F : List Vec3i) (new_fid : List Int) : PrismCage :=
  match pc.top_grid with
  | none => pc
  | some tg =>
    let tg1 := new_fid.foldl (fun g f => HashGrid.remove_element g f) tg
    let bg1 := pc.base_grid.map (fun bg => new_fid.foldl (fun g f => HashGrid.remove_element g f) bg)
    { pc with
      top_grid := some (HashGrid.insert_triangles tg1 pc.top F new_fid)
      base_grid := bg1.map (fun bg => HashGrid.insert_triangles bg pc.base F new_fid) }

/-- The loop `pc.track_ref[new_fid[i]] = new_tracks[i]`. -/
def assign_tracks (track_ref : List (List Int)) (new_fid : List Int)
    (new_tracks : List (List Int)) : List (List Int) :=
  (new_fid.zip new_tracks).foldl (fun tr p => setI tr p.1 p.2) track_ref

/-- The part of the loop body of `wildflip_pass` after `edge_flip` returned
true (`conn` holds the tables as it left them): grids, tracked sets, shift,
re-enqueue, valence counters. -/
def flip_commit (X : Ext) (c : FlipCore) (f0 u0 u1 f1 v0 v1 : Int)
    (new_shifts : List Int) (new_tracks : List (List Int)) (conn : Conn) :
    FlipCore × FlipOutcome :=
  let new_fid := [f0, f1]
  let pc1 := flip_grids { c.pc with F := conn.1 } conn.1 new_fid
  let pc2 := { pc1 with track_ref := assign_tracks pc1.track_ref new_fid new_tracks }
  let sh := X.shift_left new_fid new_shifts conn
  let push := flip_push_to_queue X sh.1 c.pc.mid
  let pushed := ([ (if v0 > v1 then push f1 v1 else push f1 v0),
    (if v0 < u0 then push f0 v0 else none),
    (if u0 < v1 then push f0 u0 else none),
    (if v1 < u1 then push f1 v1 else none),
    (if u1 < v0 then push f1 u1 else none) ] : List (Option QEntry)).reduceOption
  let val1 := modifyI c.valence v0 (fun x => wrap32 (x + 1))
  let val2 := modifyI val1 v1 (fun x => wrap32 (x + 1))
  let val3 := modifyI val2 u0 (fun x => wrap32 (x - 1))
  let val4 := modifyI val3 u1 (fun x => wrap32 (x - 1))
  ({ pc := { pc2 with F := sh.1 }, FF := sh.2.1, FFi := sh.2.2, valence := val4,
     queue := queue_push_all c.queue pushed },
    FlipOutcome.accepted pushed)

/-- The body of the `while` loop of `wildflip_pass` for the entry just popped;
`c.queue` is the queue after `pop`.  (The `assert` on the length is compiled
out in a release build and is not part of the model.) -/
def flip_body (X : Ext) (option : RemeshOptions) (c : FlipCore) (en : QEntry) :
    FlipCore × FlipOutcome :=
  let f := en.f
  let e := en.e
  let u0 := en.u0
  let u1 := en.u1
  let F := c.pc.F
  if f = -1 ∨ matGet c.FF f e = -1 then (c, FlipOutcome.boundary)
  else if matGet F f e = matGet F f ((e + 1) % 3) ∨ matGet F f e ≠ u0 ∨
      matGet F f ((e + 1) % 3) ≠ u1 then (c, FlipOutcome.stale)
  else
    let f1 := matGet c.FF f e
    let e1 := matGet c.FFi f e
    if f1 = -1 then (c, FlipOutcome.boundary)
    else
      let v0 := matGet F f ((e + 2) % 3)
      let v1 := matGet F f1 ((e1 + 2) % 3)
      let val := fun (i : Int) => getI c.valence i
      if valence_energy (val u0) (val v0) (val u1) (val v1) <
          valence_energy (wrap32 (val u0 - 1)) (wrap32 (val v0 + 1)) (wrap32 (val u1 - 1))
            (wrap32 (val v1 + 1)) then
        (c, FlipOutcome.gate)
      else
        let r := X.attempt_flip (c.pc.base, c.pc.mid, c.pc.top) F c.pc.track_ref
          option.distortion_bound f f1 e e1 v0 v1
        if r.1 > 0 then (c, FlipOutcome.rejected r.1)
        else
          let fl := X.edge_flip (F, c.FF, c.FFi) f e
          if fl.1 = false then
            ({ c with pc := { c.pc with F := fl.2.1 }, FF := fl.2.2.1, FFi := fl.2.2.2 },
              FlipOutcome.flip_failed)
          else flip_commit X c f u0 u1 f1 v0 v1 r.2.1 r.2.2 fl.2

/-- The state of the `while` loop of `wildflip_pass`. -/
structure FlipState where
  core : FlipCore
  global_tick : Int
  rejection_steps : List Int
  trace : List (QEntry × FlipOutcome)

/-- The counter updates that go with an outcome. -/
def flip_count (o : FlipOutcome) (tick : Int) (rej : List Int) : Int × List Int :=
  match o with
  | FlipOutcome.rejected flag => (tick, modifyI rej flag (fun x => x + 1))
  | FlipOutcome.flip_failed => (tick, modifyI rej 0 (fun x => x + 1))
  | FlipOutcome.accepted _ => (tick + 1, rej)
  | _ => (tick, rej)

/-- One iteration of the `while` loop of `wildflip_pass` (the queue is not empty). -/
def flip_iter (X : Ext) (option : RemeshOptions) (s : FlipState) : FlipState :=
  match s.core.queue with
  | [] => s
  | en :: rest =>
    let r := flip_body X option { s.core with queue := rest } en
    let cnt := flip_count r.2 s.global_tick s.rejection_steps
    { core := r.1, global_tick := cnt.1, rejection_steps := cnt.2,
      trace := s.trace ++ [(en, r.2)] }

/-- The `while (!queue.empty())` loop of `wildflip_pass`. -/
def wildflip_loop (X : Ext) (option : RemeshOptions) : Nat → FlipState → Option FlipState
  | 0, s => if s.core.queue = [] then some s else none
  | fuel + 1, s =>
    if s.core.queue = [] then some s else wildflip_loop X option fuel (flip_iter X option s)

/-- The effect of `flip_iter` on the core state. -/
def flip_core_iter (X : Ext) (option : RemeshOptions) (c : FlipCore) : FlipCore :=
  match c.queue with
  | [] => c
  | en :: rest => (flip_body X option { c with queue := rest } en).1

/-- The core state after `n` iterations of the loop of `wildflip_pass`, or
`none` when the queue is empty before the `n`-th iteration starts. -/
def flip_core_run (X : Ext) (option : RemeshOptions) : Nat → FlipCore → Option FlipCore
  | 0, c => some c
  | n + 1, c =>
    if c.queue = [] then none else flip_core_run X option n (flip_core_iter X option c)

/-- The pair `(E_before, E_after)` the valence test computes for the entry
`en` (not stale, not at a boundary) in the state `c`. -/
def flip_energy_pair (c : FlipCore) (en : QEntry) : Int × Int :=
  let v0 := matGet c.pc.F en.f ((en.e + 2) % 3)
  let v1 := matGet c.pc.F (matGet c.FF en.f en.e) ((matGet c.FFi en.f en.e + 2) % 3)
  (valence_energy (getI c.valence en.u0) (getI c.valence v0) (getI c.valence en.u1)
      (getI c.valence v1),
    valence_energy (wrap32 (getI c.valence en.u0 - 1)) (wrap32 (getI c.valence v0 + 1))
      (wrap32 (getI c.valence en.u1 - 1)) (wrap32 (getI c.valence v1 + 1)))

/-- The energies of the valence test at the flips accepted during the first
`n` iterations of the loop of `wildflip_pass` from the state `s`, in order. -/
def accepted_energies (X : Ext) (option : RemeshOptions) : Nat → FlipState → List (Int × Int)
  | 0, _ => []
  | n + 1, s =>
    match s.core.queue with
    | [] => []
    | en :: rest =>
      (match (flip_body X option { s.core with queue := rest } en).2 with
        | FlipOutcome.accepted _ => [flip_energy_pair { s.core with queue := rest } en]
        | _ => []) ++ accepted_energies X option n (flip_iter X option s)

/-- The valence count before the loop; the counters are 32-bit `int`. -/
def count_valence (n : Nat) (F : List Vec3i) : List Int :=
  F.foldl (fun val f =>
    [0, 1, 2].foldl (fun val j => modifyI val (f.get j) (fun x => wrap32 (x + 1))) val)
    (List.replicate n 0)

/-- The state of `wildflip_pass` when it enters the `while` loop. -/
def wildflip_init (X : Ext) (pc : PrismCage) : FlipState :=
  let adj := X.triangle_triangle_adjacency pc.F
  { core :=
      { pc := pc, FF := adj.1, FFi := adj.2,
        valence := count_valence pc.mid.length pc.F,
        queue := queue_push_all [] (flip_seed X pc.F adj.1 adj.2 pc.mid pc.feature_edges) }
    global_tick := 0
    rejection_steps := [0, 0, 0, 0, 0]
    trace := [] }

/-- The function `wildflip_pass(pc, option)`. -/
def wildflip_pass (X : Ext) (fuel : Nat) (pc : PrismCage) (option : RemeshOptions) :
    Option FlipState :=
  wildflip_loop X option fuel (wildflip_init X pc)

/-! ## `wildsplit_pass` -/

/-- One round of the inner enqueue loop of `wildsplit_pass` at `(f, e)`. -/
def split_seed_step (X : Ext) (F FF FFi : List Vec3i) (V : List Vec3d)
    (st : List QEntry × List Vec3i) (fe : Int × Int) : List QEntry × List Vec3i :=
  let f := fe.1
  let e := fe.2
  let v0 := matGet F f e
  let v1 := matGet F f ((e + 1) % 3)
  if v0 > v1 ∨ matGet st.2 f e = 1 then st
  else if matGet FF f e = -1 then st
  else
    ((X.norm (Vec3d.sub (getI V v0) (getI V v1)), f, e, v0, v1) :: st.1,
      matSet (matSet st.2 f e 1) (matGet FF f e) (matGet FFi f e) 1)

/-- The enqueue loop of `wildsplit_pass`: the entries it pushes, in push order. -/
def split_seed (X : Ext) (F FF FFi : List Vec3i) (V : List Vec3d) : List QEntry :=
  ((seed_order F.length).foldl (split_seed_step X F FF FFi V)
    ([], List.replicate F.length (0, 0, 0))).1.reverse

/-- The lambda `push_to_queue` of `wildsplit_pass`.  The test
`u1 >= input_vnum` compares an `int` with a `size_t`, so a negative `u1`
counts as large.  As in the flip pass, no push is made when `f` is out of
range or `v` is not a corner of the face. -/
def split_push_to_queue (X : Ext) (F : List Vec3i) (V : List Vec3d) (input_vnum : Nat)
    (f v : Int) : Option QEntry :=
  match getI? F f with
  | none => none
  | some face =>
    let e := find_local face v
    if e = -1 then none
    else
      let u0 := face.get e
      let u1 := face.get ((e + 1) % 3)
      if u0 > u1 ∨ (u1 < 0 ∨ (input_vnum : Int) ≤ u1) then none
      else some (X.norm (Vec3d.sub (getI V u1) (getI V u0)), f, e, u0, u1)

/-- The `checker` of `attempt_split`: face ids, shifts, tracks. -/
abbrev SplitChecker := List Int × List Int × List (List Int)

/-- One call of the split validator as the retry loop makes it: the blend
factor `alpha`, the three positions handed over, and the code returned. -/
structure SplitCall where
  alpha : ℚ
  new_b : Vec3d
  new_m : Vec3d
  new_t : Vec3d
  ret : Int
deriving DecidableEq

/-- The variables of the retry loop: `flag`, `checker`, the vertex arrays, and
the calls made so far. -/
structure SplitTry where
  flag : Int
  checker : SplitChecker
  layers : Layers
  calls : List SplitCall

/-- The three positions `{new_b, newlocation[1], new_t}` handed to the
validator at blend factor `alpha`, with
`new_b = newlocation[0] * alpha + (1 - alpha) * newlocation[1]` and
`new_t = newlocation[2] * alpha + (1 - alpha) * newlocation[1]`. -/
def retry_positions (newlocation : Vec3d × Vec3d × Vec3d) (alpha : ℚ) :
    Vec3d × Vec3d × Vec3d :=
  (Vec3d.add (Vec3d.smul alpha newlocation.1) (Vec3d.smul (1 - alpha) newlocation.2.1),
    newlocation.2.1,
    Vec3d.add (Vec3d.smul alpha newlocation.2.2) (Vec3d.smul (1 - alpha) newlocation.2.1))

/-- The record of a validator call at blend factor `alpha` that returned `ret`. -/
def retry_call (newlocation : Vec3d × Vec3d × Vec3d) (alpha : ℚ) (ret : Int) : SplitCall :=
  { alpha := alpha, new_b := (retry_positions newlocation alpha).1,
    new_m := (retry_positions newlocation alpha).2.1,
    new_t := (retry_positions newlocation alpha).2.2, ret := ret }

/-- The loop `while (flag == 1) { ...; alpha *= 0.8; if (alpha < 1e-2) break; }`
entered with `flag == 1`; `attempt` is the validator with the arguments that
do not change between calls already supplied. -/
def split_retry (attempt : Layers → Vec3d × Vec3d × Vec3d → Int × SplitChecker × Layers)
    (newlocation : Vec3d × Vec3d × Vec3d) : Nat → ℚ → SplitTry → Option SplitTry
  | 0, _, _ => none
  | fuel + 1, alpha, st =>
    let r := attempt st.layers (retry_positions newlocation alpha)
    let st1 : SplitTry :=
      { flag := r.1, checker := r.2.1, layers := r.2.2,
        calls := st.calls ++ [retry_call newlocation alpha r.1] }
    if alpha * 0.8 < 1e-2 then some st1
    else if r.1 = 1 then split_retry attempt newlocation fuel (alpha * 0.8) st1
    else some st1

/-! The next definitions are written from the description of the retry loop,
not from its code: they say what the `k`-th validator call is to receive and
what comes back, and the loop is compared with them. -/

/-- The blend factor of the `k`-th validator call (`k = 0, 1, ...`): `0.8 ^ k`. -/
def retry_factor (k : Nat) : ℚ := 0.8 ^ k

/-- The point `p * a + (1 - a) * q`, coordinate by coordinate. -/
def blend (a : ℚ) (p q : Vec3d) : Vec3d :=
  (p.1 * a + (1 - a) * q.1, p.2.1 * a + (1 - a) * q.2.1, p.2.2 * a + (1 - a) * q.2.2)

/-- The positions of the `k`-th validator call: base and top blended towards
the projected mid point with factor `0.8 ^ k`, mid at the projected point;
`newlocation` is (base midpoint, projected mid point, top midpoint). -/
def spec_positions (newlocation : Vec3d × Vec3d × Vec3d) (k : Nat) : Vec3d × Vec3d × Vec3d :=
  (blend (retry_factor k) newlocation.1 newlocation.2.1, newlocation.2.1,
    blend (retry_factor k) newlocation.2.2 newlocation.2.1)

/-- The vertex arrays before the `k`-th validator call, when the calls
`0, ..., k - 1` were made one after the other at `spec_positions`. -/
def spec_layers (attempt : Layers → Vec3d × Vec3d × Vec3d → Int × SplitChecker × Layers)
    (newlocation : Vec3d × Vec3d × Vec3d) (L : Layers) : Nat → Layers
  | 0 => L
  | k + 1 =>
    (attempt (spec_layers attempt newlocation L k) (spec_positions newlocation k)).2.2

/-- What the validator returns at the `k`-th call. -/
def spec_result (attempt : Layers → Vec3d × Vec3d × Vec3d → Int × SplitChecker × Layers)
    (newlocation : Vec3d × Vec3d × Vec3d) (L : Layers) (k : Nat) :
    Int × SplitChecker × Layers :=
  attempt (spec_layers attempt newlocation L k) (spec_positions newlocation k)

/-- The record of the `k`-th validator call. -/
def spec_call (attempt : Layers → Vec3d × Vec3d × Vec3d → Int × SplitChecker × Layers)
    (newlocation : Vec3d × Vec3d × Vec3d) (L : Layers) (k : Nat) : SplitCall :=
  { alpha := retry_factor k, new_b := (spec_positions newlocation k).1,
    new_m := (spec_positions newlocation k).2.1, new_t := (spec_positions newlocation k).2.2,
    ret := (spec_result attempt newlocation L k).1 }

/-- Fuel that always suffices for `split_retry` started at `alpha = 1`. -/
def retry_fuel : Nat := 21

/-- What the loop of `wildsplit_pass` keeps besides counters. -/
structure SplitCore where
  pc : PrismCage
  FF : List Vec3i
  FFi : List Vec3i
  target_adjustment : List ℚ
  queue : List QEntry
deriving DecidableEq

/-- How one dequeued entry of `wildsplit_pass` ends. -/
inductive SplitOutcome where
  /-- `f0 == -1 || FF[f0][e0] == -1`, or `f1 == -1`. -/
  | boundary
  /-- The face no longer holds the endpoints of the entry. -/
  | stale
  /-- The sizing test said `continue`. -/
  | sizing
  /-- The query `segment_query` gave no point. -/
  | query_failed
  /-- The retry loop ended with `flag != 0`; the validator calls made. -/
  | rejected (flag : Int) (calls : List SplitCall)
  /-- The split was committed; the validator calls made and the entries
  pushed afterwards, in order. -/
  | accepted (calls : List SplitCall) (pushed : List QEntry)
deriving DecidableEq

/-- The call `v.resize(n)`. -/
def resize {α : Type} (l : List α) (n : Nat) (d : α) : List α :=
  l.take n ++ List.replicate (n - l.length) d

/-- The hash grid update of an accepted split. -/
def split_grids (pc : PrismCage) (F : List Vec3i) (f0 f1 : Int) (new_fid : List Int) :
    PrismCage :=
  match pc.top_grid with
  | none => pc
  | some tg =>
    let tg1 := [f0, f1].foldl (fun g f => HashGrid.remove_element g f) tg
    let bg1 := pc.base_grid.map (fun bg => [f0, f1].foldl (fun g f => HashGrid.remove_element g f) bg)
    { pc with
      top_grid := some (HashGrid.insert_triangles tg1 pc.top F new_fid)
      base_grid := bg1.map (fun bg => HashGrid.insert_triangles bg pc.base F new_fid) }

/-- The part of the loop body of `wildsplit_pass` after the retry loop ended
with `flag == 0`; `pc0` is the cage with the vertex arrays as the validator
left them and `chk` the `checker` it filled. -/
def split_commit (X : Ext) (input_vnum : Nat) (c : SplitCore) (pc0 : PrismCage)
    (f0 e0 u0 u1 f1 v0 v1 : Int) (chk : SplitChecker) (calls : List SplitCall) :
    SplitCore × SplitOutcome :=
  let new_fid := chk.1
  let new_shifts := chk.2.1
  let new_tracks := chk.2.2
  let sp := X.edge_split ((pc0.mid.length : Int) - 1) (c.pc.F, c.FF, c.FFi) f0 e0
  let pc1 := split_grids { pc0 with F := sp.1 } sp.1 f0 f1 new_fid
  let pc2 := { pc1 with
    track_ref := assign_tracks (resize pc1.track_ref sp.1.length []) new_fid new_tracks }
  let sh := X.shift_left new_fid new_shifts sp
  let ta := c.target_adjustment ++
    [(getI c.target_adjustment u0 + getI c.target_adjustment u1) / 2]
  let push := split_push_to_queue X sh.1 pc0.mid input_vnum
  let fx0 := (sh.1.length : Int) - 2
  let fx1 := (sh.1.length : Int) - 1
  let pushed := ([ (if v0 < u0 then push fx0 v0 else none),
    (if v1 < u1 then push fx1 v1 else none),
    (if u1 < v0 ∧ getI new_shifts 0 ≠ 0 then push f0 u1 else none),
    (if u0 < v1 ∧ getI new_shifts 1 ≠ 0 then push f1 u0 else none) ] :
      List (Option QEntry)).reduceOption
  ({ pc := { pc2 with F := sh.1 }, FF := sh.2.1, FFi := sh.2.2,
     target_adjustment := ta, queue := queue_push_all c.queue pushed },
    SplitOutcome.accepted calls pushed)

/-- The retry loop as the body of `wildsplit_pass` enters it: `alpha = 1`,
`flag = 1`, an empty `checker`. -/
def split_retry_start (attempt : Layers → Vec3d × Vec3d × Vec3d → Int × SplitChecker × Layers)
    (newlocation : Vec3d × Vec3d × Vec3d) (L : Layers) : Option SplitTry :=
  split_retry attempt newlocation retry_fuel 1
    { flag := 1, checker := ([], [], []), layers := L, calls := [] }

/-- The part of the loop body of `wildsplit_pass` from the reference surface
query on. -/
def split_attempt (X : Ext) (option : RemeshOptions) (input_vnum : Nat) (c : SplitCore)
    (f0 e0 u0 u1 f1 e1 v0 v1 : Int) : Option (SplitCore × SplitOutcome) :=
  let nl0 := Vec3d.smul (1 / 2) (Vec3d.add (getI c.pc.base u0) (getI c.pc.base u1))
  let nl2 := Vec3d.smul (1 / 2) (Vec3d.add (getI c.pc.top u0) (getI c.pc.top u1))
  match X.segment_query nl0 nl2 with
  | none => some (c, SplitOutcome.query_failed)
  | some new_mid =>
    match split_retry_start
        (fun L p => X.attempt_split L c.pc.F c.pc.track_ref option.distortion_bound
          option.split_improve_quality f0 f1 e0 e1 p)
        (nl0, new_mid, nl2) (c.pc.base, c.pc.mid, c.pc.top) with
    | none => none
    | some t =>
      if t.flag ≠ 0 then
        some ({ c with
            pc := { c.pc with base := t.layers.1, mid := t.layers.2.1, top := t.layers.2.2 } },
          SplitOutcome.rejected t.flag t.calls)
      else
        some (split_commit X input_vnum c
          { c.pc with base := t.layers.1, mid := t.layers.2.1, top := t.layers.2.2 }
          f0 e0 u0 u1 f1 v0 v1 t.checker t.calls)

/-- The body of the `while` loop of `wildsplit_pass` for the entry just
popped; `c.queue` is the queue after `pop`.  The result is `none` only if the
retry loop runs out of fuel. -/
def split_body (X : Ext) (option : RemeshOptions) (input_vnum : Nat) (c : SplitCore)
    (en : QEntry) : Option (SplitCore × SplitOutcome) :=
  let l := en.l
  let f0 := en.f
  let e0 := en.e
  let u0 := en.u0
  let u1 := en.u1
  let F := c.pc.F
  let V := c.pc.mid
  if f0 = -1 ∨ matGet c.FF f0 e0 = -1 then some (c, SplitOutcome.boundary)
  else if matGet F f0 e0 = matGet F f0 ((e0 + 1) % 3) ∨ matGet F f0 e0 ≠ u0 ∨
      matGet F f0 ((e0 + 1) % 3) ≠ u1 then some (c, SplitOutcome.stale)
  else if |l| * 1.5 <
      X.sizing_field (getI V u0) * getI c.target_adjustment u0 +
      X.sizing_field (getI V u1) * getI c.target_adjustment u1 then
    some (c, SplitOutcome.sizing)
  else
    let f1 := matGet c.FF f0 e0
    let e1 := matGet c.FFi f0 e0
    if f1 = -1 then some (c, SplitOutcome.boundary)
    else
      split_attempt X option input_vnum c f0 e0 u0 u1 f1 e1
        (matGet F f0 ((e0 + 2) % 3)) (matGet F f1 ((e1 + 2) % 3))

/-- Whether the entry got past the sizing test, to the reference surface query. -/
def split_reaches_query : SplitOutcome → Bool
  | SplitOutcome.query_failed => true
  | SplitOutcome.rejected _ _ => true
  | SplitOutcome.accepted _ _ => true
  | _ => false

/-- What the trace of `wildsplit_pass` records for one iteration: the entry,
how it ended, and the face list afterwards. -/
structure SplitTraceItem where
  entry : QEntry
  outcome : SplitOutcome
  faces : List Vec3i

/-- The state of the `while` loop of `wildsplit_pass`. -/
structure SplitState where
  core : SplitCore
  rejections_steps : List Int
  trace : List SplitTraceItem

/-- The counter update that goes with an outcome. -/
def split_count (o : SplitOutcome) (rej : List Int) : List Int :=
  match o with
  | SplitOutcome.rejected flag _ => modifyI rej flag (fun x => x + 1)
  | _ => rej

/-- One iteration of the `while` loop of `wildsplit_pass` (the queue is not empty). -/
def split_iter (X : Ext) (option : RemeshOptions) (input_vnum : Nat) (s : SplitState) :
    Option SplitState :=
  match s.core.queue with
  | [] => some s
  | en :: rest =>
    match split_body X option input_vnum { s.core with queue := rest } en with
    | none => none
    | some r =>
      some { core := r.1, rejections_steps := split_count r.2 s.rejections_steps,
             trace := s.trace ++ [{ entry := en, outcome := r.2, faces := r.1.pc.F }] }

/-- The `while (!queue.empty())` loop of `wildsplit_pass`. -/
def wildsplit_loop (X : Ext) (option : RemeshOptions) (input_vnum : Nat) :
    Nat → SplitState → Option SplitState
  | 0, s => if s.core.queue = [] then some s else none
  | fuel + 1, s =>
    if s.core.queue = [] then some s
    else
      match split_iter X option input_vnum s with
      | none => none
      | some s1 => wildsplit_loop X option input_vnum fuel s1

/-- Insertion into the `std::set<int>` of low quality vertices. -/
def set_insert (s : List Int) (v : Int) : List Int :=
  if v ∈ s then s else s ++ [v]

/-- The set `low_quality_vertices` after the loop over the faces. -/
def low_quality_vertices (X : Ext) (F : List Vec3i) (V : List Vec3d) : List Int :=
  F.foldl (fun acc t =>
    if X.triangle_quality (getI V t.1, getI V t.2.1, getI V t.2.2) > 20 then
      set_insert (set_insert (set_insert acc t.1) t.2.1) t.2.2
    else acc) []

/-- The two closing loops over `option.target_adjustment`. -/
def post_split_adjust (ta : List ℚ) (low_quality : List Int) : List ℚ :=
  (low_quality.foldl (fun ta v => modifyI ta v (fun x => x / (2 * 1.5))) ta).map
    (fun u => max (min (1.5 * u) 1) 1e-5)

/-- The state of `wildsplit_pass` when it enters the `while` loop. -/
def wildsplit_init (X : Ext) (pc : PrismCage) (option : RemeshOptions) : SplitState :=
  let adj := X.triangle_triangle_adjacency pc.F
  { core :=
      { pc := pc, FF := adj.1, FFi := adj.2,
        target_adjustment := option.target_adjustment,
        queue := queue_push_all [] (split_seed X pc.F adj.1 adj.2 pc.mid) }
    rejections_steps := [0, 0, 0, 0, 0, 0]
    trace := [] }

/-- What `wildsplit_pass` leaves behind: the cage, the target adjustment
vector of `option`, the rejection counters, and the trace. -/
structure SplitResult where
  pc : PrismCage
  target_adjustment : List ℚ
  rejections_steps : List Int
  trace : List SplitTraceItem

/-- The function `wildsplit_pass(pc, option)`. -/
def wildsplit_pass (X : Ext) (fuel : Nat) (pc : PrismCage) (option : RemeshOptions) :
    Option SplitResult :=
  match wildsplit_loop X option pc.mid.length fuel (wildsplit_init X pc option) with
  | none => none
  | some s =>
    some { pc := s.core.pc
           target_adjustment := post_split_adjust s.core.target_adjustment
             (low_quality_vertices X s.core.pc.F s.core.pc.mid)
           rejections_steps := s.rejections_steps
           trace := s.trace }

/-! ## Well-formed meshes -/

/-- Whether the three corners of every face are pairwise distinct. -/
def faces_distinct (F : List Vec3i) : Bool :=
  F.all (fun t => decide (t.1 ≠ t.2.1) && decide (t.2.1 ≠ t.2.2) && decide (t.2.2 ≠ t.1))

/-- Whether every corner of every face is a vertex id below `n`. -/
def faces_below (n : Nat) (F : List Vec3i) : Bool :=
  F.all (fun t => decide (t.1 < (n : Int)) && decide (t.2.1 < (n : Int)) &&
    decide (t.2.2 < (n : Int)))

/-- The pair `(f, e)` is a local edge of the face list: `0 ≤ f < F.size()` and
`0 ≤ e < 3`. -/
def local_edge (F : List Vec3i) (f e : Int) : Prop :=
  0 ≤ f ∧ f < (F.length : Int) ∧ 0 ≤ e ∧ e < 3

/-- The directed edge `(F[f][e], F[f][(e + 1) % 3])`. -/
def half_edge (F : List Vec3i) (f e : Int) : Int × Int :=
  (matGet F f e, matGet F f ((e + 1) % 3))

/-- A face list with consistent winding, and adjacency tables that are correct
for it: no directed edge is degenerate or occurs twice; a table entry other
than `-1` names the local edge that holds the reversed directed edge; at an
entry `-1` no local edge holds the reversed directed edge. -/
structure ConsistentAdjacency (F FF FFi : List Vec3i) : Prop where
  nondegenerate : ∀ f e, local_edge F f e → (half_edge F f e).1 ≠ (half_edge F f e).2
  once : ∀ f e g j, local_edge F f e → local_edge F g j →
    half_edge F f e = half_edge F g j → f = g ∧ e = j
  interior : ∀ f e, local_edge F f e → matGet FF f e ≠ -1 →
    local_edge F (matGet FF f e) (matGet FFi f e) ∧
    half_edge F (matGet FF f e) (matGet FFi f e) = ((half_edge F f e).2, (half_edge F f e).1)
  boundary : ∀ f e, local_edge F f e → matGet FF f e = -1 →
    ∀ g j, local_edge F g j → half_edge F g j ≠ ((half_edge F f e).2, (half_edge F f e).1)

/-- The queue entry the enqueue loops build at the local edge `(f, e)`. -/
def seed_entry (X : Ext) (F : List Vec3i) (V : List Vec3d) (fe : Int × Int) : QEntry :=
  (X.norm (Vec3d.sub (getI V (matGet F fe.1 fe.2)) (getI V (matGet F fe.1 ((fe.2 + 1) % 3)))),
    fe.1, fe.2, matGet F fe.1 fe.2, matGet F fe.1 ((fe.2 + 1) % 3))

/-- What a trace item of the split pass has to satisfy: an accepted split
pushed at most four entries, each with `u0 ≤ u1 < n`, and with `u0 < u1` when
the faces have distinct corners. -/
def split_item_ok (n : Nat) (it : SplitTraceItem) : Prop :=
  ∀ calls P, it.outcome = SplitOutcome.accepted calls P →
    P.length ≤ 4 ∧
    ∀ en ∈ P, en.u0 ≤ en.u1 ∧ en.u1 < (n : Int) ∧
      (faces_distinct it.faces = true → en.u0 < en.u1)

/-- What holds of the state `st` of an enqueue loop once it has visited the
local edges `pre`: every entry pushed is the entry of a visited local edge that
passed the tests; no entry was pushed twice; a flag is set only at the local
edge of an entry or at the opposite one; and every visited local edge with
`v0 < v1` that is interior and not skipped has its entry. -/
structure SeedInv (X : Ext) (F FF FFi : List Vec3i) (V : List Vec3d) (skip : List (Int × Int))
    (pre : List (Int × Int)) (st : List QEntry × List Vec3i) : Prop where
  sound : ∀ en ∈ st.1, ∃ fe ∈ pre, en = seed_entry X F V fe ∧
    ¬ (matGet F fe.1 fe.2 > matGet F fe.1 ((fe.2 + 1) % 3)) ∧
    matGet FF fe.1 fe.2 ≠ -1 ∧
    (matGet F fe.1 fe.2, matGet F fe.1 ((fe.2 + 1) % 3)) ∉ skip
  nodup : st.1.Nodup
  flags : ∀ g j, local_edge F g j → matGet st.2 g j = 1 →
    ∃ en ∈ st.1, (g, j) = (en.f, en.e) ∨
      (g, j) = (matGet FF en.f en.e, matGet FFi en.f en.e)
  complete : ∀ fe ∈ pre, matGet F fe.1 fe.2 < matGet F fe.1 ((fe.2 + 1) % 3) →
    matGet FF fe.1 fe.2 ≠ -1 →
    (matGet F fe.1 fe.2, matGet F fe.1 ((fe.2 + 1) % 3)) ∉ skip →
    seed_entry X F V fe ∈ st.1

/-- The list `S` of pushed entries holds exactly one entry for every
undirected interior edge that is not in `skip`, and nothing else: each entry
sits at a local edge `(f, e)` with `F[f][e] = u0 < u1 = F[f][(e + 1) % 3]`
that is interior and not skipped, keyed by the distance of its endpoints;
each interior local edge whose endpoint pair is not skipped has exactly one
entry with that pair of endpoints; a boundary local edge has none. -/
structure SeedsEachEdgeOnce (X : Ext) (F FF : List Vec3i) (V : List Vec3d)
    (skip : List (Int × Int)) (S : List QEntry) : Prop where
  entries : ∀ en ∈ S, local_edge F en.f en.e ∧
    matGet F en.f en.e = en.u0 ∧ matGet F en.f ((en.e + 1) % 3) = en.u1 ∧
    en.u0 < en.u1 ∧ matGet FF en.f en.e ≠ -1 ∧ (en.u0, en.u1) ∉ skip ∧
    en.l = X.norm (Vec3d.sub (getI V en.u0) (getI V en.u1))
  once : ∀ f e, local_edge F f e → matGet FF f e ≠ -1 →
    (min (matGet F f e) (matGet F f ((e + 1) % 3)),
      max (matGet F f e) (matGet F f ((e + 1) % 3))) ∉ skip →
    S.countP (fun en => decide (en.u0 = min (matGet F f e) (matGet F f ((e + 1) % 3)) ∧
      en.u1 = max (matGet F f e) (matGet F f ((e + 1) % 3)))) = 1
  no_boundary : ∀ f e, local_edge F f e → matGet FF f e = -1 →
    S.countP (fun en => decide (en.u0 = min (matGet F f e) (matGet F f ((e + 1) % 3)) ∧
      en.u1 = max (matGet F f e) (matGet F f ((e + 1) % 3)))) = 0

/-! ## `tetrahedron_tetrahedron_overlap` -/

/-- A tetrahedron (`std::array<Vec3d, 4>`). -/
abbrev Tet := Vec3d × Vec3d × Vec3d × Vec3d

/-- Corner `T[i]`. -/
def Tet.get (T : Tet) (i : Nat) : Vec3d :=
  match i with
  | 0 => T.1
  | 1 => T.2.1
  | 2 => T.2.2.1
  | _ => T.2.2.2

/-- The predicates `tetrahedron_tetrahedron_overlap` is built from:
`GEO::PCK::orient_3d` (a sign), `point_in_tetrahedron` and
`segment_triangle_overlap`. -/
structure TetPredicates where
  orient_3d : Vec3d → Vec3d → Vec3d → Vec3d → Int
  point_in_tetrahedron : Vec3d → Vec3d → Vec3d → Vec3d → Vec3d → Bool
  segment_triangle_overlap : Vec3d × Vec3d → Vec3d × Vec3d × Vec3d → Bool

/-- The values of `i` in `for (int i = 0; i < 4; i++)`. -/
def tet_corners : List Nat := [0, 1, 2, 3]

/-- The table `edges`. -/
def tet_edges : List (Nat × Nat) := [(0, 1), (0, 2), (0, 3), (1, 2), (1, 3), (2, 3)]

/-- The table `faces`. -/
def tet_faces : List (Nat × Nat × Nat) := [(0, 1, 2), (0, 1, 3), (0, 2, 3), (1, 2, 3)]

/-- The loop `for (int i = 0; i < 4; i++)` over the corners `is`, with its two
early returns. -/
def overlap_vertex_loop (P : TetPredicates) (A B : Tet) : List Nat → Bool
  | [] => false
  | i :: is =>
    if P.point_in_tetrahedron (A.get i) (B.get 0) (B.get 1) (B.get 2) (B.get 3) then true
    else if P.point_in_tetrahedron (B.get i) (A.get 0) (A.get 1) (A.get 2) (A.get 3) then true
    else overlap_vertex_loop P A B is

/-- The loop `for (auto f : faces)` for one edge `e`, with its two early returns. -/
def overlap_face_loop (P : TetPredicates) (A B : Tet) (e : Nat × Nat) :
    List (Nat × Nat × Nat) → Bool
  | [] => false
  | f :: fs =>
    if P.segment_triangle_overlap (A.get e.1, A.get e.2)
        (B.get f.1, B.get f.2.1, B.get f.2.2) then true
    else if P.segment_triangle_overlap (B.get e.1, B.get e.2)
        (A.get f.1, A.get f.2.1, A.get f.2.2) then true
    else overlap_face_loop P A B e fs

/-- The loop `for (auto e : edges)`. -/
def overlap_edge_loop (P : TetPredicates) (A B : Tet) : List (Nat × Nat) → Bool
  | [] => false
  | e :: es =>
    if overlap_face_loop P A B e tet_faces then true else overlap_edge_loop P A B es

/-- The function `prism::predicates::tetrahedron_tetrahedron_overlap(Atet, Btet)`. -/
def tetrahedron_tetrahedron_overlap (P : TetPredicates) (A B : Tet) : Bool :=
  if P.orient_3d (A.get 0) (A.get 1) (A.get 2) (A.get 3) = 0 then false
  else if P.orient_3d (B.get 0) (B.get 1) (B.get 2) (B.get 3) = 0 then false
  else if overlap_vertex_loop P A B tet_corners then true
  else overlap_edge_loop P A B tet_edges

/-! ## Reference collaborators

The collaborators of the passes are not among the sources.  To run the passes
on concrete meshes the following stand-ins are used; each follows the spec's
description of the collaborator it stands for. -/

/-- Integer square root by binary digits: the largest `r + d` with
`d < 2 ^ k` and `(r + d) ^ 2 ≤ n`. -/
def sqrt_bits (n : Nat) : Nat → Nat → Nat
  | 0, r => r
  | k + 1, r =>
    if (r + 2 ^ k) * (r + 2 ^ k) ≤ n then sqrt_bits n k (r + 2 ^ k) else sqrt_bits n k r

/-- Modelled from the spec: the Eigen call `x.norm()` (Eigen is not among the
sources), as the Euclidean length rounded down to 15 decimal places (for
lengths below `2 ^ 14`); it is exact whenever the length is a multiple of
`1e-15`. -/
def ref_norm (v : Vec3d) : ℚ :=
  let q := (v.1 * v.1 + v.2.1 * v.2.1 + v.2.2 * v.2.2) * 10 ^ 30
  (sqrt_bits (q.num / q.den).toNat 64 0 : ℚ) / 10 ^ 15

/-- Modelled from the spec: the first `(face, local edge)` at or after face
`g` whose directed edge is `a → b` (a step of the adjacency builder, whose
source `retain_triangle_adjacency.hpp` is not among the sources). -/
def find_halfedge (a b : Int) : List Vec3i → Int → Option (Int × Int)
  | [], _ => none
  | t :: ts, g =>
    if t.1 = a ∧ t.2.1 = b then some (g, 0)
    else if t.2.1 = a ∧ t.2.2 = b then some (g, 1)
    else if t.2.2 = a ∧ t.1 = b then some (g, 2)
    else find_halfedge a b ts (g + 1)

/-- Modelled from the spec: the rows of `FF` and `FFi` for the face `t`
(adjacency builder, §4.1): across each edge the face holding the reversed
edge and that edge's local index there, or `-1` at a boundary. -/
def adjacency_row (F : List Vec3i) (t : Vec3i) : Vec3i × Vec3i :=
  let r := fun (a b : Int) => (find_halfedge b a F 0).getD (-1, -1)
  (((r t.1 t.2.1).1, (r t.2.1 t.2.2).1, (r t.2.2 t.1).1),
    ((r t.1 t.2.1).2, (r t.2.1 t.2.2).2, (r t.2.2 t.1).2))

/-- Modelled from the spec: the adjacency builder `triangle_triangle_adjacency`
of §4.1 (`retain_triangle_adjacency.hpp` is not among the sources). -/
def ref_adjacency (F : List Vec3i) : List Vec3i × List Vec3i :=
  (F.map (fun t => (adjacency_row F t).1), F.map (fun t => (adjacency_row F t).2))

/-- Modelled from the spec: whether the face `t` has the corner `v` (used by
the non-manifold test of the flip primitive). -/
def has_corner (t : Vec3i) (v : Int) : Bool :=
  decide (t.1 = v) || decide (t.2.1 = v) || decide (t.2.2 = v)

/-- Modelled from the spec: the primitive `flip(face, edge)` of §6
(`local_mesh_edit.hpp` is not among the sources).  It fails, changing
nothing, at a boundary edge and when the two opposite corners are already
joined by a face (non-manifold result).  Otherwise the face `f0` becomes
`(u0, v1, v0)` and its neighbour `(u1, v0, v1)`, each keeping its first
corner in place, and the adjacency tables are those of the new face list. -/
def ref_edge_flip (c : Conn) (f0 e0 : Int) : Bool × Conn :=
  let f1 := matGet c.2.1 f0 e0
  if f1 = -1 then (false, c)
  else
    let e1 := matGet c.2.2 f0 e0
    let v0 := matGet c.1 f0 ((e0 + 2) % 3)
    let v1 := matGet c.1 f1 ((e1 + 2) % 3)
    if c.1.any (fun t => has_corner t v0 && has_corner t v1) then (false, c)
    else
      let F1 := matSet (matSet c.1 f0 ((e0 + 1) % 3) v1) f1 ((e1 + 1) % 3) v0
      (true, F1, ref_adjacency F1)

/-- Modelled from the spec: the primitive `split(new-vertex-id, face, edge)`
of §6 (`local_mesh_edit.hpp` is not among the sources): the two faces at the
edge `u0 → u1` become four, the two new ones appended.  The face `f0` keeps
the half at `u1`, its neighbour the half at `u0`; the appended faces are the
other halves. -/
def ref_edge_split (ux : Int) (c : Conn) (f0 e0 : Int) : Conn :=
  let f1 := matGet c.2.1 f0 e0
  let e1 := matGet c.2.2 f0 e0
  let F1 := matSet (matSet c.1 f0 e0 ux) f1 e1 ux
  let F2 := F1 ++ [(getI c.1 f0).set ((e0 + 1) % 3) ux, (getI c.1 f1).set ((e1 + 1) % 3) ux]
  (F2, ref_adjacency F2)

/-- Modelled from the spec: a face with its corners moved `k` places to the left. -/
def rotate_left (t : Vec3i) (k : Int) : Vec3i :=
  if k % 3 = 1 then (t.2.1, t.2.2, t.1)
  else if k % 3 = 2 then (t.2.2, t.1, t.2.1)
  else t

/-- Modelled from the spec: the primitive `reorient/shift(faces, shift-amounts)`
of §6 (`local_mesh_edit.hpp` is not among the sources): each listed face is
rotated by its shift and the adjacency tables follow. -/
def ref_shift_left (fids shifts : List Int) (c : Conn) : Conn :=
  let F1 := (fids.zip shifts).foldl (fun F p => modifyI F p.1 (fun t => rotate_left t p.2)) c.1
  (F1, ref_adjacency F1)

/-- Twice the signed area of the triangle `a b c` projected to the `xy` plane. -/
def orient2d (a b c : Vec3d) : ℚ :=
  (b.1 - a.1) * (c.2.1 - a.2.1) - (b.2.1 - a.2.1) * (c.1 - a.1)

/-- Modelled from the spec: a flip validator (`validity_checks.hpp` is not
among the sources) that runs the degeneracy check of §4.4 on the mid layer
of a planar mesh: code 1 unless both triangles of the flipped pair are
positively oriented; on acceptance no shift, and the two faces keep their
tracked sets. -/
def planar_attempt_flip (L : Layers) (F : List Vec3i) (track_ref : List (List Int)) (_d : ℚ)
    (f0 f1 e0 _e1 v0 v1 : Int) : Int × List Int × List (List Int) :=
  let u0 := matGet F f0 e0
  let u1 := matGet F f0 ((e0 + 1) % 3)
  if 0 < orient2d (getI L.2.1 u0) (getI L.2.1 v1) (getI L.2.1 v0) ∧
      0 < orient2d (getI L.2.1 u1) (getI L.2.1 v0) (getI L.2.1 v1) then
    (0, [0, 0], [getI track_ref f0, getI track_ref f1])
  else (1, [], [])

/-- Modelled from the spec: a split validator (`validity_checks.hpp` is not
among the sources).  It returns code 1 (degenerate) while the proposed base
point is more than `1/2` below the proposed mid point, and otherwise accepts:
the three proposed points are appended to the vertex arrays, the four faces
of the split are reported without shifts, each tracking what its parent did. -/
def planar_attempt_split (L : Layers) (F : List Vec3i) (track_ref : List (List Int)) (_d : ℚ)
    (_q : Bool) (f0 f1 _e0 _e1 : Int) (p : Vec3d × Vec3d × Vec3d) :
    Int × SplitChecker × Layers :=
  if 1 / 2 < p.2.1.2.2 - p.1.2.2 then (1, ([], [], []), L)
  else
    (0, ([f0, f1, (F.length : Int), (F.length : Int) + 1], [0, 0, 0, 0],
        [getI track_ref f0, getI track_ref f1, getI track_ref f0, getI track_ref f1]),
      (L.1 ++ [p.1], L.2.1 ++ [p.2.1], L.2.2 ++ [p.2.2]))

/-- The stand-ins together: unit sizing field, the reference surface is the
plane half way between base and top, and no triangle is of low quality. -/
def planar_ext : Ext where
  norm := ref_norm
  triangle_triangle_adjacency := ref_adjacency
  attempt_flip := planar_attempt_flip
  edge_flip := ref_edge_flip
  shift_left := ref_shift_left
  sizing_field := fun _ => 1
  segment_query := fun a b => some (Vec3d.smul (1 / 2) (Vec3d.add a b))
  attempt_split := planar_attempt_split
  edge_split := ref_edge_split
  triangle_quality := fun _ => 0

/-- A cage over the plane `z = 0` with mid layer `V` (given by `x`, `y`), base
at `z = -1` and top at `z = 1`, every face tracking reference triangle 0, no
hash grids. -/
def planar_cage (V : List (ℚ × ℚ)) (F : List Vec3i) (feature_edges : List (Int × Int)) :
    PrismCage :=
  { base := V.map (fun p => (p.1, p.2, -1))
    mid := V.map (fun p => (p.1, p.2, 0))
    top := V.map (fun p => (p.1, p.2, 1))
    F := F
    track_ref := F.map (fun _ => [0])
    feature_edges := feature_edges
    top_grid := none
    base_grid := none }

/-- Options used with the sample cages. -/
def sample_options (target_adjustment : List ℚ) : RemeshOptions :=
  { distortion_bound := 1, target_adjustment := target_adjustment,
    split_improve_quality := false }
/-! ## Sample meshes -/

/-- The squared Euclidean length.  The flip pass only compares queue keys, and
squaring keeps the order of lengths, so with this in place of `norm` the
queue pops in the same order as with the true length. -/
def sq_norm (v : Vec3d) : ℚ := v.1 * v.1 + v.2.1 * v.2.1 + v.2.2 * v.2.2

/-- The stand-ins for the flip pass, with squared lengths as queue keys. -/
def flip_ext : Ext := { planar_ext with norm := sq_norm }

/-- A strip of two unit squares, four triangles; the edge `2 - 5` between the
squares is a feature edge. -/
def strip_cage : PrismCage :=
  planar_cage [(1, 0), (1, 2), (0, 1), (0, 0), (0, 2), (1, 1)]
    [(0, 2, 3), (5, 2, 0), (2, 5, 1), (2, 1, 4)] [(5, 2)]

/-- A 3 × 2 grid of unit squares, each cut into two triangles, twelve
vertices, all faces positively oriented. -/
def grid_cage : PrismCage :=
  planar_cage
    [(2, 2), (2, 1), (1, 1), (2, 0), (0, 2), (3, 1), (1, 2), (3, 0), (3, 2), (0, 1), (0, 0),
      (1, 0)]
    [(0, 1, 5), (3, 1, 11), (7, 5, 3), (0, 6, 1), (2, 11, 1), (9, 10, 2), (6, 4, 9), (5, 8, 0),
      (1, 6, 2), (11, 2, 10), (1, 3, 5), (2, 6, 9)] []

/-- A 4 × 3 rectangle cut along the diagonal `0 - 2` of length 5. -/
def rect_cage : PrismCage :=
  planar_cage [(0, 0), (4, 0), (4, 3), (0, 3)] [(0, 1, 2), (0, 2, 3)] []

/-- The stand-ins with a constant sizing field of `3.75`. -/
def coarse_ext : Ext := { planar_ext with sizing_field := fun _ => 15 / 4 }
/-! ## Theorems -/

/-! ### Tetrahedron overlap -/

theorem overlap_vertex_loop_iff (P : TetPredicates) (A B : Tet) (is : List Nat) :
    overlap_vertex_loop P A B is = true ↔
      ∃ i ∈ is,
        P.point_in_tetrahedron (A.get i) (B.get 0) (B.get 1) (B.get 2) (B.get 3) = true ∨
        P.point_in_tetrahedron (B.get i) (A.get 0) (A.get 1) (A.get 2) (A.get 3) = true := by
  induction is with
  | nil => simp [overlap_vertex_loop]
  | cons i is ih =>
    simp only [overlap_vertex_loop, List.mem_cons, exists_eq_or_imp]
    by_cases h1 : P.point_in_tetrahedron (A.get i) (B.get 0) (B.get 1) (B.get 2) (B.get 3) = true
    · simp [h1]
    · by_cases h2 :
        P.point_in_tetrahedron (B.get i) (A.get 0) (A.get 1) (A.get 2) (A.get 3) = true
      · simp [h2]
      · simp [h1, h2, ih]

theorem overlap_face_loop_iff (P : TetPredicates) (A B : Tet) (e : Nat × Nat)
    (fs : List (Nat × Nat × Nat)) :
    overlap_face_loop P A B e fs = true ↔
      ∃ f ∈ fs,
        P.segment_triangle_overlap (A.get e.1, A.get e.2)
          (B.get f.1, B.get f.2.1, B.get f.2.2) = true ∨
        P.segment_triangle_overlap (B.get e.1, B.get e.2)
          (A.get f.1, A.get f.2.1, A.get f.2.2) = true := by
  induction fs with
  | nil => simp [overlap_face_loop]
  | cons f fs ih =>
    simp only [overlap_face_loop, List.mem_cons, exists_eq_or_imp]
    by_cases h1 : P.segment_triangle_overlap (A.get e.1, A.get e.2)
        (B.get f.1, B.get f.2.1, B.get f.2.2) = true
    · simp [h1]
    · by_cases h2 : P.segment_triangle_overlap (B.get e.1, B.get e.2)
          (A.get f.1, A.get f.2.1, A.get f.2.2) = true
      · simp [h2]
      · simp [h1, h2, ih]

theorem overlap_edge_loop_iff (P : TetPredicates) (A B : Tet) (es : List (Nat × Nat)) :
    overlap_edge_loop P A B es = true ↔
      ∃ e ∈ es, overlap_face_loop P A B e tet_faces = true := by
  induction es with
  | nil => simp [overlap_edge_loop]
  | cons e es ih =>
    simp only [overlap_edge_loop, List.mem_cons, exists_eq_or_imp]
    by_cases h1 : overlap_face_loop P A B e tet_faces = true
    · simp [h1]
    · simp [h1, ih]

/-- C6: `tetrahedron_tetrahedron_overlap` is false when `orient_3d` of either
tetrahedron is 0; otherwise it is true exactly when one of the 8 containment
tests (corner `i` of `A` in `B`, corner `i` of `B` in `A`, `i < 4`) or one of
the 48 segment-triangle tests (edge of one against face of the other, both
ways, over the edge and face tables) is true.  The edge table lists the 6
pairs `i < j < 4` and the face table the 4 triples `i < j < k < 4`, each once. -/
theorem tetrahedron_overlap_reference (P : TetPredicates) (A B : Tet) :
    ((P.orient_3d (A.get 0) (A.get 1) (A.get 2) (A.get 3) = 0 ∨
        P.orient_3d (B.get 0) (B.get 1) (B.get 2) (B.get 3) = 0) →
      tetrahedron_tetrahedron_overlap P A B = false) ∧
    (P.orient_3d (A.get 0) (A.get 1) (A.get 2) (A.get 3) ≠ 0 →
      P.orient_3d (B.get 0) (B.get 1) (B.get 2) (B.get 3) ≠ 0 →
      (tetrahedron_tetrahedron_overlap P A B = true ↔
        (∃ i, i < 4 ∧
          (P.point_in_tetrahedron (A.get i) (B.get 0) (B.get 1) (B.get 2) (B.get 3) = true ∨
           P.point_in_tetrahedron (B.get i) (A.get 0) (A.get 1) (A.get 2) (A.get 3) = true)) ∨
        (∃ e ∈ tet_edges, ∃ f ∈ tet_faces,
          (P.segment_triangle_overlap (A.get e.1, A.get e.2)
              (B.get f.1, B.get f.2.1, B.get f.2.2) = true ∨
           P.segment_triangle_overlap (B.get e.1, B.get e.2)
              (A.get f.1, A.get f.2.1, A.get f.2.2) = true)))) ∧
    (∀ i j, (i, j) ∈ tet_edges ↔ i < j ∧ j < 4) ∧ tet_edges.Nodup ∧
    (∀ i j k, (i, j, k) ∈ tet_faces ↔ i < j ∧ j < k ∧ k < 4) ∧ tet_faces.Nodup ∧
    2 * tet_corners.length = 8 ∧ 2 * (tet_edges.length * tet_faces.length) = 48 := by
  refine ⟨?_, ?_, ?_, by decide, ?_, by decide, rfl, rfl⟩
  · intro h
    unfold tetrahedron_tetrahedron_overlap
    rcases h with h | h
    · simp [h]
    · by_cases hA : P.orient_3d (A.get 0) (A.get 1) (A.get 2) (A.get 3) = 0
      · simp [hA]
      · simp [hA, h]
  · intro hA hB
    unfold tetrahedron_tetrahedron_overlap
    rw [if_neg hA, if_neg hB]
    have hv := overlap_vertex_loop_iff P A B tet_corners
    have he := overlap_edge_loop_iff P A B tet_edges
    have h4 : ∀ i : Nat, i ∈ tet_corners ↔ i < 4 := by
      intro i
      simp only [tet_corners, List.mem_cons, List.mem_singleton, List.not_mem_nil, or_false]
      omega
    constructor
    · intro h
      by_cases hvl : overlap_vertex_loop P A B tet_corners = true
      · left
        obtain ⟨i, hi, hp⟩ := hv.mp hvl
        exact ⟨i, (h4 i).mp hi, hp⟩
      · right
        rw [if_neg hvl] at h
        obtain ⟨e, hem, hf⟩ := he.mp h
        obtain ⟨f, hfm, hp⟩ := (overlap_face_loop_iff P A B e tet_faces).mp hf
        exact ⟨e, hem, f, hfm, hp⟩
    · intro h
      by_cases hvl : overlap_vertex_loop P A B tet_corners = true
      · rw [if_pos hvl]
      · rw [if_neg hvl]
        rcases h with ⟨i, hi, hp⟩ | ⟨e, hem, f, hfm, hp⟩
        · exact absurd (hv.mpr ⟨i, (h4 i).mpr hi, hp⟩) hvl
        · exact he.mpr ⟨e, hem, (overlap_face_loop_iff P A B e tet_faces).mpr ⟨f, hfm, hp⟩⟩
  · intro i j
    simp only [tet_edges, List.mem_cons, List.mem_singleton, Prod.mk.injEq, List.not_mem_nil,
      or_false]
    omega
  · intro i j k
    simp only [tet_faces, List.mem_cons, List.mem_singleton, Prod.mk.injEq, List.not_mem_nil,
      or_false]
    omega

/-! ### The valence gate of the flip pass -/

/-- C2 (the code at the failing input): on `strip_cage` the edge `2 - 5` is a
feature edge and the enqueue loop leaves it out, but the first accepted flip
(of the edge `1 - 2`) pushes the entry `(1, 3, 0, 2, 5)` for it, and the third
iteration dequeues that entry, submits it to the validator and flips it: the
final face list no longer has an edge `2 - 5`.  Listed are the entries
dequeued, in order, and how each ended. -/
theorem feature_edge_reenqueued_and_flipped :
    strip_cage.feature_edges = [(5, 2)] ∧
    flip_seed flip_ext strip_cage.F (ref_adjacency strip_cage.F).1 (ref_adjacency strip_cage.F).2
      strip_cage.mid strip_cage.feature_edges = [(2, 0, 0, 0, 2), (2, 2, 2, 1, 2)] ∧
    (wildflip_pass flip_ext 6 strip_cage (sample_options [])).map
        (fun s => s.trace.map Prod.fst) =
      some [(2, 2, 2, 1, 2), (2, 0, 0, 0, 2), (1, 3, 0, 2, 5), (1, 2, 2, 1, 4), (1, 1, 2, 0, 5),
        (1, 1, 2, 0, 5)] ∧
    (wildflip_pass flip_ext 6 strip_cage (sample_options [])).map
        (fun s => s.trace.map Prod.snd) =
      some [FlipOutcome.accepted [(1, 2, 2, 1, 4), (1, 3, 0, 2, 5)], FlipOutcome.gate,
        FlipOutcome.accepted [(1, 1, 2, 0, 5), (1, 1, 2, 0, 5)], FlipOutcome.boundary,
        FlipOutcome.boundary, FlipOutcome.boundary] ∧
    (wildflip_pass flip_ext 6 strip_cage (sample_options [])).map (fun s => s.core.pc.F) =
      some [(0, 2, 3), (5, 4, 0), (4, 5, 1), (2, 0, 4)] := by
  refine ⟨by decide!, by decide!, by decide!, by decide!, by decide!⟩

/-! ### The damping retry loop of the split pass -/

theorem retry_factor_ge (k : Nat) (hk : k ≤ 20) : ¬ ((4 / 5 : ℚ) ^ k < 1 / 100) := by
  have h1 : (4 / 5 : ℚ) ^ 20 ≤ (4 / 5 : ℚ) ^ k :=
    pow_le_pow_of_le_one (by norm_num) (by norm_num) hk
  have h2 : (1 / 100 : ℚ) ≤ (4 / 5 : ℚ) ^ 20 := by norm_num
  exact not_lt.mpr (le_trans h2 h1)

theorem retry_factor_lt : (4 / 5 : ℚ) ^ 21 < 1 / 100 := by norm_num

theorem retry_factor_eq (k : Nat) : retry_factor k = (4 / 5 : ℚ) ^ k := by
  unfold retry_factor
  norm_num

theorem retry_positions_eq (nl : Vec3d × Vec3d × Vec3d) (k : Nat) :
    retry_positions nl ((4 / 5 : ℚ) ^ k) = spec_positions nl k := by
  simp only [retry_positions, spec_positions, blend, Vec3d.add, Vec3d.smul, retry_factor_eq,
    Prod.mk.injEq]
  refine ⟨⟨?_, ?_, ?_⟩, trivial, ?_, ?_, ?_⟩ <;> ring

theorem retry_call_eq
    (attempt : Layers → Vec3d × Vec3d × Vec3d → Int × SplitChecker × Layers)
    (nl : Vec3d × Vec3d × Vec3d) (L : Layers) (k : Nat) :
    retry_call nl ((4 / 5 : ℚ) ^ k) (spec_result attempt nl L k).1 = spec_call attempt nl L k := by
  unfold retry_call spec_call
  rw [retry_positions_eq, retry_factor_eq]

/-- The retry loop entered before its `k`-th call (`alpha = 0.8^k`, `k ≤ 20`)
with enough fuel and with the vertex arrays the calls so far have left: it
returns after `m` more calls, each made as the description says. -/
theorem split_retry_spec
    (attempt : Layers → Vec3d × Vec3d × Vec3d → Int × SplitChecker × Layers)
    (nl : Vec3d × Vec3d × Vec3d) (L : Layers) :
    ∀ (fuel k : Nat) (st : SplitTry), k ≤ 20 → 21 ≤ fuel + k →
      st.layers = spec_layers attempt nl L k →
      ∃ (t : SplitTry) (m : Nat),
        1 ≤ m ∧ k + m ≤ 21 ∧
        split_retry attempt nl fuel ((4 / 5 : ℚ) ^ k) st = some t ∧
        t.calls = st.calls ++ (List.range m).map (fun j => spec_call attempt nl L (k + j)) ∧
        t.flag = (spec_result attempt nl L (k + m - 1)).1 ∧
        t.checker = (spec_result attempt nl L (k + m - 1)).2.1 ∧
        t.layers = spec_layers attempt nl L (k + m) ∧
        (∀ j, j + 1 < m → (spec_result attempt nl L (k + j)).1 = 1 ∧
          (1 / 100 : ℚ) ≤ (4 / 5 : ℚ) ^ (k + j + 1)) ∧
        ((spec_result attempt nl L (k + m - 1)).1 ≠ 1 ∨ k + m = 21) := by
  have h08 : (0.8 : ℚ) = 4 / 5 := by norm_num
  have h001 : (1e-2 : ℚ) = 1 / 100 := by norm_num
  intro fuel
  induction fuel with
  | zero => intro k st hk hf; omega
  | succ fuel ih =>
    intro k st hk hf hL
    rw [split_retry]
    rw [h08, h001, ← pow_succ, hL, retry_positions_eq]
    have hres : attempt (spec_layers attempt nl L k) (spec_positions nl k) =
        spec_result attempt nl L k := rfl
    rw [hres, retry_call_eq]
    by_cases hlt : (4 / 5 : ℚ) ^ (k + 1) < 1 / 100
    · rw [if_pos hlt]
      have hk20 : k = 20 := by
        by_contra hne
        exact retry_factor_ge (k + 1) (by omega) hlt
      exact ⟨_, 1, le_refl 1, by omega, rfl, rfl, rfl, rfl, rfl,
        fun j hj => by omega, Or.inr (by omega)⟩
    · rw [if_neg hlt]
      have hk19 : k ≤ 19 := by
        by_contra hne
        have : k = 20 := by omega
        subst this
        exact hlt retry_factor_lt
      by_cases hr : (spec_result attempt nl L k).1 = 1
      · rw [if_pos hr]
        obtain ⟨t, m, hm1, hm2, hrun, hcalls, hflag, hchk, hlay, hcont, hstop⟩ :=
          ih (k + 1)
            { flag := (spec_result attempt nl L k).1, checker := (spec_result attempt nl L k).2.1,
              layers := (spec_result attempt nl L k).2.2,
              calls := st.calls ++ [spec_call attempt nl L k] } (by omega) (by omega) rfl
        have hidx : k + 1 + m - 1 = k + (m + 1) - 1 := by omega
        have hidx2 : k + 1 + m = k + (m + 1) := by omega
        refine ⟨t, m + 1, by omega, by omega, hrun, ?_, ?_, ?_, ?_, ?_, ?_⟩
        · rw [hcalls]
          simp only [List.append_assoc, List.singleton_append, List.range_succ_eq_map,
            List.map_cons, List.map_map, Nat.add_zero]
          congr 2
          apply List.map_congr_left
          intro j _
          simp only [Function.comp]
          congr 1
          omega
        · rw [← hidx]; exact hflag
        · rw [← hidx]; exact hchk
        · rw [← hidx2]; exact hlay
        · intro j hj
          cases j with
          | zero => exact ⟨hr, not_lt.mp hlt⟩
          | succ j =>
            have := hcont j (by omega)
            have e1 : k + (j + 1) = k + 1 + j := by omega
            rw [e1]
            exact this
        · rw [← hidx, ← hidx2]; exact hstop
      · rw [if_neg hr]
        exact ⟨_, 1, le_refl 1, by omega, rfl, rfl, rfl, rfl, rfl,
          fun j hj => by omega, Or.inl hr⟩

theorem split_retry_start_some
    (attempt : Layers → Vec3d × Vec3d × Vec3d → Int × SplitChecker × Layers)
    (nl : Vec3d × Vec3d × Vec3d) (L : Layers) :
    ∃ t : SplitTry, split_retry_start attempt nl L = some t := by
  obtain ⟨t, m, _, _, hrun, _⟩ := split_retry_spec attempt nl L retry_fuel 0
    { flag := 1, checker := ([], [], []), layers := L, calls := [] } (by omega)
    (by simp [retry_fuel]) rfl
  exact ⟨t, by simpa [split_retry_start] using hrun⟩

/-! ### The sizing gate of the split pass -/

/-- From the reference surface query on, the loop body returns, with an
outcome past the sizing test. -/
theorem split_attempt_some (X : Ext) (option : RemeshOptions) (n : Nat) (c : SplitCore)
    (f0 e0 u0 u1 f1 e1 v0 v1 : Int) :
    ∃ r, split_attempt X option n c f0 e0 u0 u1 f1 e1 v0 v1 = some r ∧
      split_reaches_query r.2 = true := by
  unfold split_attempt
  dsimp only
  cases hq : X.segment_query
      (Vec3d.smul (1 / 2) (Vec3d.add (getI c.pc.base u0) (getI c.pc.base u1)))
      (Vec3d.smul (1 / 2) (Vec3d.add (getI c.pc.top u0) (getI c.pc.top u1))) with
  | none => exact ⟨_, rfl, rfl⟩
  | some new_mid =>
    dsimp only
    obtain ⟨t, ht⟩ := split_retry_start_some
      (fun L p => X.attempt_split L c.pc.F c.pc.track_ref option.distortion_bound
        option.split_improve_quality f0 f1 e0 e1 p)
      (Vec3d.smul (1 / 2) (Vec3d.add (getI c.pc.base u0) (getI c.pc.base u1)), new_mid,
        Vec3d.smul (1 / 2) (Vec3d.add (getI c.pc.top u0) (getI c.pc.top u1)))
      (c.pc.base, c.pc.mid, c.pc.top)
    rw [ht]
    dsimp only
    split_ifs
    · exact ⟨_, rfl, rfl⟩
    · exact ⟨_, rfl, by simp [split_commit, split_reaches_query]⟩

/-- C4 (counterexample): on `rect_cage` with sizing field `3.75` and target
adjustment 1 the only queue entry is the diagonal of length 5, and
`1.5 * 5 = 7.5 = 3.75 + 3.75`: the skip condition of the claim holds with
equality, yet the entry is not skipped but goes on to the reference surface
query and the validator. -/
theorem split_sizing_equality_not_skipped :
    (wildsplit_init coarse_ext rect_cage (sample_options [1, 1, 1, 1])).core.queue =
      [(5, 1, 0, 0, 2)] ∧
    (1.5 : ℚ) * 5 ≤ 15 / 4 * 1 + 15 / 4 * 1 ∧
    (split_body coarse_ext (sample_options [1, 1, 1, 1]) 4
      { (wildsplit_init coarse_ext rect_cage (sample_options [1, 1, 1, 1])).core with
        queue := [] } (5, 1, 0, 0, 2)).map (fun r => split_reaches_query r.2) = some true := by
  decide!

/-- C4 (amended): for a queue entry that is neither stale nor at a boundary,
with `target(v) = sizing_field(mid[v]) * target_adjustment[v]`, the split pass
skips the entry at the sizing test exactly when
`1.5 * |l| < target(u0) + target(u1)`, and takes it as a split candidate (goes
on to the reference surface query) exactly when
`target(u0) + target(u1) ≤ 1.5 * |l|`; at equality it is a candidate. -/
theorem split_sizing_gate_iff (X : Ext) (option : RemeshOptions) (n : Nat) (c : SplitCore)
    (en : QEntry)
    (h1 : en.f ≠ -1) (h2 : matGet c.FF en.f en.e ≠ -1)
    (h3 : matGet c.pc.F en.f en.e = en.u0)
    (h4 : matGet c.pc.F en.f ((en.e + 1) % 3) = en.u1)
    (h5 : en.u0 ≠ en.u1) :
    (split_body X option n c en = some (c, SplitOutcome.sizing) ↔
      |en.l| * 1.5 <
        X.sizing_field (getI c.pc.mid en.u0) * getI c.target_adjustment en.u0 +
        X.sizing_field (getI c.pc.mid en.u1) * getI c.target_adjustment en.u1) ∧
    ((∃ r, split_body X option n c en = some r ∧ split_reaches_query r.2 = true) ↔
      X.sizing_field (getI c.pc.mid en.u0) * getI c.target_adjustment en.u0 +
        X.sizing_field (getI c.pc.mid en.u1) * getI c.target_adjustment en.u1 ≤
      |en.l| * 1.5) := by
  have hb : ¬ (en.f = -1 ∨ matGet c.FF en.f en.e = -1) := by simp [h1, h2]
  have hs : ¬ (matGet c.pc.F en.f en.e = matGet c.pc.F en.f ((en.e + 1) % 3) ∨
      matGet c.pc.F en.f en.e ≠ en.u0 ∨ matGet c.pc.F en.f ((en.e + 1) % 3) ≠ en.u1) := by
    rw [h3, h4]
    simp [h5]
  unfold split_body
  dsimp only
  rw [if_neg hb, if_neg hs, if_neg h2]
  by_cases hg : |en.l| * 1.5 <
      X.sizing_field (getI c.pc.mid en.u0) * getI c.target_adjustment en.u0 +
      X.sizing_field (getI c.pc.mid en.u1) * getI c.target_adjustment en.u1
  · rw [if_pos hg]
    refine ⟨by simp [hg], ?_⟩
    constructor
    · rintro ⟨r, hr, hq⟩
      simp only [Option.some.injEq] at hr
      subst hr
      simp [split_reaches_query] at hq
    · intro hle
      exact absurd hg (not_lt.mpr hle)
  · rw [if_neg hg]
    obtain ⟨r, hr, hq⟩ := split_attempt_some X option n c en.f en.e en.u0 en.u1
      (matGet c.FF en.f en.e) (matGet c.FFi en.f en.e)
      (matGet c.pc.F en.f ((en.e + 2) % 3))
      (matGet c.pc.F (matGet c.FF en.f en.e) ((matGet c.FFi en.f en.e + 2) % 3))
    rw [hr]
    refine ⟨?_, ?_⟩
    · constructor
      · intro h
        simp only [Option.some.injEq] at h
        rw [h] at hq
        simp [split_reaches_query] at hq
      · intro h
        exact absurd h hg
    · constructor
      · intro _
        exact not_lt.mp hg
      · intro _
        exact ⟨r, rfl, hq⟩

/-- C4 (amended), witness: the diagonal of `rect_cage` at equality is a candidate. -/
theorem split_sizing_gate_iff_witness :
    ∃ r, split_body coarse_ext (sample_options [1, 1, 1, 1]) 4
      { (wildsplit_init coarse_ext rect_cage (sample_options [1, 1, 1, 1])).core with
        queue := [] } (5, 1, 0, 0, 2) = some r ∧ split_reaches_query r.2 = true :=
  (split_sizing_gate_iff coarse_ext (sample_options [1, 1, 1, 1]) 4
    { (wildsplit_init coarse_ext rect_cage (sample_options [1, 1, 1, 1])).core with
      queue := [] } (5, 1, 0, 0, 2)
    (by decide) (by decide!) (by decide!) (by decide!) (by decide)).2.mpr (by decide!)

/-! ### The target adjustment after a split pass -/

theorem split_attempt_target (X : Ext) (option : RemeshOptions) (n : Nat) (c : SplitCore)
    (f0 e0 u0 u1 f1 e1 v0 v1 : Int) (r : SplitCore × SplitOutcome)
    (h : split_attempt X option n c f0 e0 u0 u1 f1 e1 v0 v1 = some r) :
    ∃ extra, r.1.target_adjustment = c.target_adjustment ++ extra := by
  unfold split_attempt at h
  dsimp only at h
  split at h
  · simp only [Option.some.injEq] at h
    subst h
    exact ⟨[], by simp⟩
  · split at h
    · exact absurd h (by simp)
    · split_ifs at h
      · simp only [Option.some.injEq] at h
        subst h
        exact ⟨[], by simp⟩
      · simp only [Option.some.injEq] at h
        subst h
        exact ⟨_, rfl⟩

theorem split_body_target (X : Ext) (option : RemeshOptions) (n : Nat) (c : SplitCore)
    (en : QEntry) (r : SplitCore × SplitOutcome) (h : split_body X option n c en = some r) :
    ∃ extra, r.1.target_adjustment = c.target_adjustment ++ extra := by
  unfold split_body at h
  dsimp only at h
  split_ifs at h
  all_goals first
    | (simp only [Option.some.injEq] at h
       subst h
       exact ⟨[], by simp⟩)
    | exact split_attempt_target X option n c _ _ _ _ _ _ _ _ r h

theorem split_iter_target (X : Ext) (option : RemeshOptions) (n : Nat) (s s1 : SplitState)
    (h : split_iter X option n s = some s1) :
    ∃ extra, s1.core.target_adjustment = s.core.target_adjustment ++ extra := by
  unfold split_iter at h
  split at h
  · simp only [Option.some.injEq] at h
    subst h
    exact ⟨[], by simp⟩
  · split at h
    · exact absurd h (by simp)
    · simp only [Option.some.injEq] at h
      subst h
      rename_i hbody
      have hb := split_body_target X option n _ _ _ hbody
      exact hb

theorem wildsplit_loop_target (X : Ext) (option : RemeshOptions) (n : Nat) :
    ∀ (fuel : Nat) (s s1 : SplitState), wildsplit_loop X option n fuel s = some s1 →
      ∃ extra, s1.core.target_adjustment = s.core.target_adjustment ++ extra := by
  intro fuel
  induction fuel with
  | zero =>
    intro s s1 h
    unfold wildsplit_loop at h
    split_ifs at h
    simp only [Option.some.injEq] at h
    subst h
    exact ⟨[], by simp⟩
  | succ fuel ih =>
    intro s s1 h
    unfold wildsplit_loop at h
    split_ifs at h
    · simp only [Option.some.injEq] at h
      subst h
      exact ⟨[], by simp⟩
    · split at h
      · exact absurd h (by simp)
      · rename_i s2 hs2
        obtain ⟨e1, he1⟩ := split_iter_target X option n s s2 hs2
        obtain ⟨e2, he2⟩ := ih s2 s1 h
        exact ⟨e1 ++ e2, by rw [he2, he1, List.append_assoc]⟩

theorem modifyNth_getElem? {α : Type} (f : α → α) (l : List α) (n i : Nat) :
    (modifyNth f l n)[i]? = if i = n then l[i]?.map f else l[i]? := by
  induction l generalizing n i with
  | nil => cases n <;> simp [modifyNth]
  | cons x xs ih =>
    cases n with
    | zero =>
      cases i with
      | zero => simp [modifyNth]
      | succ i => simp [modifyNth]
    | succ n =>
      cases i with
      | zero => simp [modifyNth]
      | succ i => simp [modifyNth, ih]

/-- After the loop over the low quality vertices every entry is its old value
divided by a power of 3. -/
theorem low_quality_fold (lq : List Int) :
    ∀ (ta : List ℚ) (i : Nat) (a : ℚ), ta[i]? = some a →
      ∃ m : Nat,
        (lq.foldl (fun ta v => modifyI ta v (fun x => x / (2 * 1.5))) ta)[i]? =
          some (a / 3 ^ m) := by
  induction lq with
  | nil => intro ta i a h; exact ⟨0, by simpa using h⟩
  | cons v lq ih =>
    intro ta i a h
    simp only [List.foldl_cons]
    have hstep : ∃ m : Nat, (modifyI ta v (fun x => x / (2 * 1.5)))[i]? = some (a / 3 ^ m) := by
      unfold modifyI
      split_ifs
      · exact ⟨0, by simpa using h⟩
      · rw [modifyNth_getElem?]
        split_ifs
        · refine ⟨1, ?_⟩
          rw [h]
          simp only [Option.map_some', Option.some.injEq, pow_one]
          norm_num
        · exact ⟨0, by simpa using h⟩
    obtain ⟨m1, hm1⟩ := hstep
    obtain ⟨m2, hm2⟩ := ih _ i _ hm1
    refine ⟨m1 + m2, ?_⟩
    rw [hm2, pow_add, div_div]

theorem clamp_bounds (u : ℚ) :
    (1e-5 : ℚ) ≤ max (min (1.5 * u) 1) 1e-5 ∧ max (min (1.5 * u) 1) 1e-5 ≤ 1 := by
  refine ⟨le_max_right _ _, max_le (min_le_right _ _) (by norm_num)⟩

theorem div_pow3_le (a : ℚ) (m : Nat) (ha : 0 ≤ a) : a / 3 ^ m ≤ a := by
  have h3 : (1 : ℚ) ≤ 3 ^ m := one_le_pow₀ (by norm_num)
  exact div_le_self ha h3

theorem clamp_growth (a : ℚ) (m : Nat) :
    ((1e-5 : ℚ) ≤ 1.5 * a → max (min (1.5 * (a / 3 ^ m)) 1) 1e-5 ≤ 1.5 * a) ∧
    (1.5 * a < (1e-5 : ℚ) → max (min (1.5 * (a / 3 ^ m)) 1) 1e-5 = 1e-5) := by
  have h3 : (0 : ℚ) < 3 ^ m := by positivity
  constructor
  · intro h
    have ha : 0 ≤ a := by
      have : (0 : ℚ) ≤ 1.5 * a := le_trans (by norm_num) h
      have h15 : (0 : ℚ) < 1.5 := by norm_num
      exact nonneg_of_mul_nonneg_right this h15
    apply max_le _ h
    apply le_trans (min_le_left _ _)
    have := div_pow3_le a m ha
    have h15 : (0 : ℚ) ≤ 1.5 := by norm_num
    exact mul_le_mul_of_nonneg_left this h15
  · intro h
    apply max_eq_right
    apply le_trans (min_le_left _ _)
    by_cases ha : 0 ≤ a
    · have := div_pow3_le a m ha
      have h15 : (0 : ℚ) ≤ 1.5 := by norm_num
      exact le_trans (mul_le_mul_of_nonneg_left this h15) (le_of_lt h)
    · have hneg : a / 3 ^ m ≤ 0 := div_nonpos_of_nonpos_of_nonneg (le_of_lt (not_le.mp ha)) (le_of_lt h3)
      have h15 : (0 : ℚ) ≤ 1.5 := by norm_num
      have : 1.5 * (a / 3 ^ m) ≤ 0 := mul_nonpos_of_nonneg_of_nonpos h15 hneg
      exact le_trans this (by norm_num)

/-- C5 (counterexample): `wildsplit_pass` on `rect_cage` with the pre-pass
target adjustment `1e-6` at vertex 0 returns with `1e-5` there, which is more
than `1.5 * 1e-6`. -/
theorem target_adjustment_grows_from_tiny :
    (wildsplit_pass planar_ext 20 rect_cage (sample_options [1 / 1000000, 1, 1, 1])).map
      (fun r => r.target_adjustment[0]?) = some (some (1 / 100000)) ∧
    ¬ ((1 / 100000 : ℚ) ≤ 1.5 * (1 / 1000000)) := by
  decide!

/-- C5 (amended): when `wildsplit_pass` returns, every entry of the target
adjustment vector lies in `[1e-5, 1]`, and for a vertex with pre-pass value `a`
the post-pass value is at most `1.5 * a` whenever `1.5 * a ≥ 1e-5`, and is
exactly `1e-5` when `1.5 * a < 1e-5` (so it is at most `max (1.5 * a) 1e-5`);
this holds whether or not the vertex was marked low quality. -/
theorem target_adjustment_clamp (X : Ext) (fuel : Nat) (pc : PrismCage) (option : RemeshOptions)
    (res : SplitResult) (h : wildsplit_pass X fuel pc option = some res) :
    (∀ u ∈ res.target_adjustment, (1e-5 : ℚ) ≤ u ∧ u ≤ 1) ∧
    (∀ (v : Nat) (a : ℚ), option.target_adjustment[v]? = some a →
      ∃ b, res.target_adjustment[v]? = some b ∧ (1e-5 : ℚ) ≤ b ∧ b ≤ 1 ∧
        ((1e-5 : ℚ) ≤ 1.5 * a → b ≤ 1.5 * a) ∧ (1.5 * a < (1e-5 : ℚ) → b = 1e-5)) := by
  unfold wildsplit_pass at h
  split at h
  · exact absurd h (by simp)
  · rename_i s hs
    simp only [Option.some.injEq] at h
    subst h
    dsimp only
    constructor
    · intro u hu
      unfold post_split_adjust at hu
      obtain ⟨w, _, rfl⟩ := List.mem_map.mp hu
      exact clamp_bounds w
    · intro v a ha
      obtain ⟨extra, hex⟩ := wildsplit_loop_target X option pc.mid.length fuel _ s hs
      have hinit : (wildsplit_init X pc option).core.target_adjustment =
          option.target_adjustment := rfl
      rw [hinit] at hex
      have hv : s.core.target_adjustment[v]? = some a := by
        rw [hex]
        have hlt : v < option.target_adjustment.length := by
          by_contra hge
          rw [List.getElem?_eq_none (not_lt.mp hge)] at ha
          exact absurd ha (by simp)
        rw [List.getElem?_append_left hlt]
        exact ha
      obtain ⟨m, hm⟩ := low_quality_fold
        (low_quality_vertices X s.core.pc.F s.core.pc.mid) _ v a hv
      refine ⟨max (min (1.5 * (a / 3 ^ m)) 1) 1e-5, ?_, (clamp_bounds _).1, (clamp_bounds _).2,
        (clamp_growth a m).1, (clamp_growth a m).2⟩
      unfold post_split_adjust
      rw [List.getElem?_map, hm]
      rfl

/-- C5 (amended), witness: the pass on `rect_cage` returns and every target
adjustment is in `[1e-5, 1]` afterwards. -/
theorem target_adjustment_clamp_witness :
    ∃ res, wildsplit_pass planar_ext 20 rect_cage (sample_options [1 / 1000000, 1, 1, 1]) =
        some res ∧
      ∀ u ∈ res.target_adjustment, (1e-5 : ℚ) ≤ u ∧ u ≤ 1 :=
  ⟨(wildsplit_pass planar_ext 20 rect_cage (sample_options [1 / 1000000, 1, 1, 1])).get
      (by decide!),
    (Option.some_get _).symm,
    (target_adjustment_clamp planar_ext 20 rect_cage (sample_options [1 / 1000000, 1, 1, 1]) _
      (Option.some_get _).symm).1⟩

/-! ### The enqueue loops -/

theorem split_seed_step_eq (X : Ext) (F FF FFi : List Vec3i) (V : List Vec3d)
    (st : List QEntry × List Vec3i) (fe : Int × Int) :
    split_seed_step X F FF FFi V st fe = flip_seed_step X F FF FFi V [] st fe := by
  unfold split_seed_step flip_seed_step
  simp

theorem split_seed_eq (X : Ext) (F FF FFi : List Vec3i) (V : List Vec3d) :
    split_seed X F FF FFi V = flip_seed X F FF FFi V [] := by
  unfold split_seed flip_seed
  have h : split_seed_step X F FF FFi V = flip_seed_step X F FF FFi V (skip_edges []) := by
    funext st fe
    exact split_seed_step_eq X F FF FFi V st fe
  rw [h]

theorem mem_seed_order (n : Nat) (fe : Int × Int) :
    fe ∈ seed_order n ↔ (0 ≤ fe.1 ∧ fe.1 < (n : Int)) ∧ (fe.2 = 0 ∨ fe.2 = 1 ∨ fe.2 = 2) := by
  unfold seed_order
  simp only [List.mem_flatMap, List.mem_range, List.mem_cons, List.mem_singleton,
    List.not_mem_nil, or_false]
  constructor
  · rintro ⟨f, hf, h | h | h⟩ <;> subst h <;> simp <;> omega
  · rintro ⟨⟨h0, h1⟩, h2⟩
    refine ⟨fe.1.toNat, by omega, ?_⟩
    have hf : ((fe.1.toNat : Nat) : Int) = fe.1 := Int.toNat_of_nonneg h0
    rw [hf]
    rcases h2 with h | h | h
    · left; exact Prod.ext rfl h
    · right; left; exact Prod.ext rfl h
    · right; right; exact Prod.ext rfl h

/-- Every entry the enqueue loop pushes is the entry of a local edge it visits,
whose first corner is not above its second, which is not at a boundary and is
not in the skip set. -/
theorem seed_fold_sound (X : Ext) (F FF FFi : List Vec3i) (V : List Vec3d)
    (skip : List (Int × Int)) (L : List (Int × Int)) :
    ∀ (todo : List (Int × Int)) (st : List QEntry × List Vec3i),
      (∀ fe ∈ todo, fe ∈ L) →
      (∀ en ∈ st.1, ∃ fe ∈ L, en = seed_entry X F V fe ∧
        ¬ (matGet F fe.1 fe.2 > matGet F fe.1 ((fe.2 + 1) % 3)) ∧
        matGet FF fe.1 fe.2 ≠ -1 ∧
        (matGet F fe.1 fe.2, matGet F fe.1 ((fe.2 + 1) % 3)) ∉ skip) →
      ∀ en ∈ (todo.foldl (flip_seed_step X F FF FFi V skip) st).1, ∃ fe ∈ L,
        en = seed_entry X F V fe ∧
        ¬ (matGet F fe.1 fe.2 > matGet F fe.1 ((fe.2 + 1) % 3)) ∧
        matGet FF fe.1 fe.2 ≠ -1 ∧
        (matGet F fe.1 fe.2, matGet F fe.1 ((fe.2 + 1) % 3)) ∉ skip := by
  intro todo
  induction todo with
  | nil => intro st _ hst; simpa using hst
  | cons fe todo ih =>
    intro st hL hst
    simp only [List.foldl_cons]
    apply ih
    · intro x hx
      exact hL x (List.mem_cons_of_mem _ hx)
    · unfold flip_seed_step
      dsimp only
      split_ifs with h1 h2 h3
      · exact hst
      · exact hst
      · exact hst
      · intro en hen
        rcases List.mem_cons.mp hen with rfl | hen
        · refine ⟨fe, hL fe (List.mem_cons_self _ _), rfl, ?_, h2, h3⟩
          intro hgt
          exact h1 (Or.inl hgt)
        · exact hst en hen

theorem flip_seed_sound (X : Ext) (F FF FFi : List Vec3i) (V : List Vec3d)
    (feature_edges : List (Int × Int)) (en : QEntry)
    (hen : en ∈ flip_seed X F FF FFi V feature_edges) :
    ∃ fe ∈ seed_order F.length, en = seed_entry X F V fe ∧
      ¬ (matGet F fe.1 fe.2 > matGet F fe.1 ((fe.2 + 1) % 3)) ∧
      matGet FF fe.1 fe.2 ≠ -1 ∧
      (matGet F fe.1 fe.2, matGet F fe.1 ((fe.2 + 1) % 3)) ∉ skip_edges feature_edges := by
  unfold flip_seed at hen
  rw [List.mem_reverse] at hen
  exact seed_fold_sound X F FF FFi V _ (seed_order F.length) (seed_order F.length) _
    (fun fe h => h) (by simp) en hen

theorem getI_mem (F : List Vec3i) (f : Int) (h0 : 0 ≤ f) (h1 : f < (F.length : Int)) :
    getI F f ∈ F := by
  unfold getI
  rw [if_neg (not_lt.mpr h0)]
  have hlt : f.toNat < F.length := by omega
  rw [List.getD_eq_getElem?_getD, List.getElem?_eq_getElem hlt]
  exact List.getElem_mem _

theorem getI?_mem (F : List Vec3i) (f : Int) (t : Vec3i) (h : getI? F f = some t) : t ∈ F := by
  unfold getI? at h
  split_ifs at h
  exact List.getElem?_mem h

/-- The corners at `e` and `(e + 1) % 3` of a face, for `e` among 0, 1, 2. -/
theorem corner_pair (t : Vec3i) (e : Int) (he : e = 0 ∨ e = 1 ∨ e = 2) :
    (t.get e, t.get ((e + 1) % 3)) = (t.1, t.2.1) ∨
    (t.get e, t.get ((e + 1) % 3)) = (t.2.1, t.2.2) ∨
    (t.get e, t.get ((e + 1) % 3)) = (t.2.2, t.1) := by
  rcases he with h | h | h <;> subst h
  · left; rfl
  · right; left; rfl
  · right; right; rfl

theorem faces_distinct_corner (F : List Vec3i) (t : Vec3i) (e : Int)
    (hF : faces_distinct F = true) (ht : t ∈ F) (he : e = 0 ∨ e = 1 ∨ e = 2) :
    t.get e ≠ t.get ((e + 1) % 3) := by
  unfold faces_distinct at hF
  rw [List.all_eq_true] at hF
  have h := hF t ht
  simp only [Bool.and_eq_true, decide_eq_true_eq] at h
  obtain ⟨⟨h1, h2⟩, h3⟩ := h
  rcases corner_pair t e he with hp | hp | hp <;>
    (simp only [Prod.mk.injEq] at hp
     rw [hp.1, hp.2])
  · exact h1
  · exact h2
  · exact h3

theorem faces_below_corner (n : Nat) (F : List Vec3i) (t : Vec3i) (e : Int)
    (hF : faces_below n F = true) (ht : t ∈ F) (he : e = 0 ∨ e = 1 ∨ e = 2) :
    t.get ((e + 1) % 3) < (n : Int) := by
  unfold faces_below at hF
  rw [List.all_eq_true] at hF
  have h := hF t ht
  simp only [Bool.and_eq_true, decide_eq_true_eq] at h
  obtain ⟨⟨h1, h2⟩, h3⟩ := h
  rcases corner_pair t e he with hp | hp | hp <;>
    (simp only [Prod.mk.injEq] at hp
     rw [hp.2])
  · exact h2
  · exact h3
  · exact h1

theorem find_local_cases (face : Vec3i) (v : Int) :
    find_local face v = -1 ∨ find_local face v = 0 ∨ find_local face v = 1 ∨
      find_local face v = 2 := by
  unfold find_local
  simp only [List.foldl_cons, List.foldl_nil]
  split_ifs <;> simp

/-! ### Entries that do not end in a committed edit -/

theorem flip_body_frame (X : Ext) (option : RemeshOptions) (c : FlipCore) (en : QEntry)
    (hflip : ∀ conn f e, (X.edge_flip conn f e).1 = false → (X.edge_flip conn f e).2 = conn)
    (hne : ∀ P, (flip_body X option c en).2 ≠ FlipOutcome.accepted P) :
    (flip_body X option c en).1 = c := by
  unfold flip_body at hne ⊢
  dsimp only at hne ⊢
  split_ifs at hne ⊢ with h1 h2 h3 h4 h5 h6
  · rfl
  · rfl
  · rfl
  · rfl
  · rfl
  · have hfl := hflip _ _ _ h6
    dsimp only
    rw [hfl]
  · exact absurd rfl (hne _)

theorem flip_count_frame (o : FlipOutcome) (tick : Int) (rej : List Int)
    (hne : ∀ P, o ≠ FlipOutcome.accepted P) :
    (flip_count o tick rej).1 = tick ∧
    ((flip_count o tick rej).2 = rej ∨
      ∃ i, (flip_count o tick rej).2 = modifyI rej i (fun x => x + 1)) := by
  cases o with
  | accepted P => exact absurd rfl (hne P)
  | boundary => exact ⟨rfl, Or.inl rfl⟩
  | stale => exact ⟨rfl, Or.inl rfl⟩
  | gate => exact ⟨rfl, Or.inl rfl⟩
  | rejected flag => exact ⟨rfl, Or.inr ⟨flag, rfl⟩⟩
  | flip_failed => exact ⟨rfl, Or.inr ⟨0, rfl⟩⟩

/-- The retry loop leaves the vertex arrays alone when it ends with a code
other than 0, for a validator that does not touch them when it rejects. -/
theorem split_retry_layers
    (attempt : Layers → Vec3d × Vec3d × Vec3d → Int × SplitChecker × Layers)
    (nl : Vec3d × Vec3d × Vec3d)
    (hval : ∀ L p, (attempt L p).1 ≠ 0 → (attempt L p).2.2 = L) :
    ∀ (fuel : Nat) (alpha : ℚ) (st t : SplitTry),
      split_retry attempt nl fuel alpha st = some t → t.flag ≠ 0 → t.layers = st.layers := by
  intro fuel
  induction fuel with
  | zero => intro alpha st t h; simp [split_retry] at h
  | succ fuel ih =>
    intro alpha st t h hflag
    rw [split_retry] at h
    split_ifs at h with h1 h2
    · simp only [Option.some.injEq] at h
      subst h
      exact hval _ _ hflag
    · have := ih _ _ _ h hflag
      rw [this]
      exact hval _ _ (by rw [h2]; decide)
    · simp only [Option.some.injEq] at h
      subst h
      exact hval _ _ hflag

theorem split_attempt_frame (X : Ext) (option : RemeshOptions) (n : Nat) (c : SplitCore)
    (f0 e0 u0 u1 f1 e1 v0 v1 : Int) (r : SplitCore × SplitOutcome)
    (hval : ∀ L F tr d q g0 g1 i0 i1 p, (X.attempt_split L F tr d q g0 g1 i0 i1 p).1 ≠ 0 →
      (X.attempt_split L F tr d q g0 g1 i0 i1 p).2.2 = L)
    (h : split_attempt X option n c f0 e0 u0 u1 f1 e1 v0 v1 = some r)
    (hne : ∀ calls P, r.2 ≠ SplitOutcome.accepted calls P) : r.1 = c := by
  unfold split_attempt at h
  dsimp only at h
  split at h
  · simp only [Option.some.injEq] at h
    subst h
    rfl
  · split at h
    · exact absurd h (by simp)
    · rename_i t ht
      split_ifs at h with hflag
      · simp only [Option.some.injEq] at h
        subst h
        have hl := split_retry_layers _ _ (fun L p => hval L _ _ _ _ _ _ _ _ p) _ _ _ _ ht hflag
        dsimp only at hl ⊢
        rw [hl]
      · simp only [Option.some.injEq] at h
        subst h
        exact absurd rfl (hne _ _)

theorem split_body_frame (X : Ext) (option : RemeshOptions) (n : Nat) (c : SplitCore)
    (en : QEntry) (r : SplitCore × SplitOutcome)
    (hval : ∀ L F tr d q g0 g1 i0 i1 p, (X.attempt_split L F tr d q g0 g1 i0 i1 p).1 ≠ 0 →
      (X.attempt_split L F tr d q g0 g1 i0 i1 p).2.2 = L)
    (h : split_body X option n c en = some r)
    (hne : ∀ calls P, r.2 ≠ SplitOutcome.accepted calls P) : r.1 = c := by
  unfold split_body at h
  dsimp only at h
  split_ifs at h
  all_goals first
    | (simp only [Option.some.injEq] at h
       subst h
       rfl)
    | exact split_attempt_frame X option n c _ _ _ _ _ _ _ _ r hval h hne

theorem split_count_frame (o : SplitOutcome) (rej : List Int) :
    split_count o rej = rej ∨ ∃ i, split_count o rej = modifyI rej i (fun x => x + 1) := by
  cases o with
  | rejected flag calls => exact Or.inr ⟨flag, rfl⟩
  | boundary => exact Or.inl rfl
  | stale => exact Or.inl rfl
  | sizing => exact Or.inl rfl
  | query_failed => exact Or.inl rfl
  | accepted calls P => exact Or.inl rfl

/-- C7: in both passes, an iteration whose entry does not end in a committed
edit leaves the whole core state as it was, apart from the queue having lost
that entry: the cage (face list, tracked sets, the three vertex arrays, grids),
`FF`, `FFi`, and the valence counters (flip) or the target adjustment vector
(split).  The flip tick does not move, and the rejection counters are
unchanged or one of them is one higher.  The validators and a failing
`edge_flip` are taken not to change their arguments: the flip validator has no
way to in the model, the other two by the hypotheses. -/
theorem rejected_entry_leaves_state (X : Ext) (option : RemeshOptions)
    (hflip : ∀ conn f e, (X.edge_flip conn f e).1 = false → (X.edge_flip conn f e).2 = conn)
    (hval : ∀ L F tr d q g0 g1 i0 i1 p, (X.attempt_split L F tr d q g0 g1 i0 i1 p).1 ≠ 0 →
      (X.attempt_split L F tr d q g0 g1 i0 i1 p).2.2 = L) :
    (∀ (s : FlipState) (en : QEntry) (rest : List QEntry), s.core.queue = en :: rest →
      (∀ P, (flip_body X option { s.core with queue := rest } en).2 ≠ FlipOutcome.accepted P) →
      (flip_iter X option s).core = { s.core with queue := rest } ∧
      (flip_iter X option s).global_tick = s.global_tick ∧
      ((flip_iter X option s).rejection_steps = s.rejection_steps ∨
        ∃ i, (flip_iter X option s).rejection_steps =
          modifyI s.rejection_steps i (fun x => x + 1))) ∧
    (∀ (n : Nat) (s s1 : SplitState) (en : QEntry) (rest : List QEntry),
      s.core.queue = en :: rest → split_iter X option n s = some s1 →
      (∀ r, split_body X option n { s.core with queue := rest } en = some r →
        ∀ calls P, r.2 ≠ SplitOutcome.accepted calls P) →
      s1.core = { s.core with queue := rest } ∧
      (s1.rejections_steps = s.rejections_steps ∨
        ∃ i, s1.rejections_steps = modifyI s.rejections_steps i (fun x => x + 1))) := by
  constructor
  · intro s en rest hq hne
    unfold flip_iter
    simp only [hq]
    refine ⟨flip_body_frame X option _ en hflip hne, ?_⟩
    exact flip_count_frame _ _ _ hne
  · intro n s s1 en rest hq hs hne
    unfold split_iter at hs
    simp only [hq] at hs
    split at hs
    · exact absurd hs (by simp)
    · rename_i r hr
      simp only [Option.some.injEq] at hs
      subst hs
      exact ⟨split_body_frame X option n _ en r hval hr (hne r hr), split_count_frame _ _⟩

theorem ref_edge_flip_fail (conn : Conn) (f e : Int)
    (h : (ref_edge_flip conn f e).1 = false) : (ref_edge_flip conn f e).2 = conn := by
  unfold ref_edge_flip at h ⊢
  dsimp only at h ⊢
  split_ifs at h ⊢
  · rfl
  · rfl

theorem planar_attempt_split_reject (L : Layers) (F : List Vec3i) (tr : List (List Int))
    (d : ℚ) (q : Bool) (g0 g1 i0 i1 : Int) (p : Vec3d × Vec3d × Vec3d)
    (h : (planar_attempt_split L F tr d q g0 g1 i0 i1 p).1 ≠ 0) :
    (planar_attempt_split L F tr d q g0 g1 i0 i1 p).2.2 = L := by
  unfold planar_attempt_split at h ⊢
  split_ifs at h ⊢
  · rfl
  · simp at h

/-- C7, witness: the second iteration of the flip pass on `strip_cage` stops
at the valence test, and leaves everything but the queue as it was. -/
theorem rejected_entry_leaves_state_witness :
    (flip_iter flip_ext (sample_options [])
        (flip_iter flip_ext (sample_options []) (wildflip_init flip_ext strip_cage))).core =
      { (flip_iter flip_ext (sample_options []) (wildflip_init flip_ext strip_cage)).core with
        queue := [(1, 3, 0, 2, 5), (1, 2, 2, 1, 4)] } :=
  ((rejected_entry_leaves_state flip_ext (sample_options [])
      (fun conn f e h => ref_edge_flip_fail conn f e h)
      (fun L F tr d q g0 g1 i0 i1 p h => planar_attempt_split_reject L F tr d q g0 g1 i0 i1 p h)).1
    (flip_iter flip_ext (sample_options []) (wildflip_init flip_ext strip_cage))
    (2, 0, 0, 0, 2) [(1, 3, 0, 2, 5), (1, 2, 2, 1, 4)] (by decide!) (by
      intro P
      have h : (flip_body flip_ext (sample_options [])
          { (flip_iter flip_ext (sample_options [])
              (wildflip_init flip_ext strip_cage)).core with
            queue := [(1, 3, 0, 2, 5), (1, 2, 2, 1, 4)] } (2, 0, 0, 0, 2)).2 =
          FlipOutcome.gate := by decide!
      rw [h]
      exact fun hc => by cases hc)).1

theorem split_push_spec (X : Ext) (F : List Vec3i) (V : List Vec3d) (n : Nat) (f v : Int)
    (en : QEntry) (h : split_push_to_queue X F V n f v = some en) :
    en.u0 ≤ en.u1 ∧ en.u1 < (n : Int) ∧ (faces_distinct F = true → en.u0 < en.u1) := by
  unfold split_push_to_queue at h
  split at h
  · exact absurd h (by simp)
  · rename_i face hface
    dsimp only at h
    split_ifs at h with h1 h2
    simp only [Option.some.injEq] at h
    subst h
    have hle : face.get (find_local face v) ≤ face.get ((find_local face v + 1) % 3) := by
      by_contra hc
      exact h2 (Or.inl (not_le.mp hc))
    have hlt : face.get ((find_local face v + 1) % 3) < (n : Int) := by
      by_contra hc
      exact h2 (Or.inr (Or.inr (not_lt.mp hc)))
    refine ⟨hle, hlt, ?_⟩
    intro hF
    have he : find_local face v = 0 ∨ find_local face v = 1 ∨ find_local face v = 2 := by
      rcases find_local_cases face v with h | h
      · exact absurd h h1
      · exact h
    have hne := faces_distinct_corner F face _ hF (getI?_mem F f face hface) he
    exact lt_of_le_of_ne hle hne

theorem split_commit_ok (X : Ext) (n : Nat) (c : SplitCore) (pc0 : PrismCage)
    (f0 e0 u0 u1 f1 v0 v1 : Int) (chk : SplitChecker) (calls : List SplitCall) (en : QEntry) :
    split_item_ok n
      { entry := en,
        outcome := (split_commit X n c pc0 f0 e0 u0 u1 f1 v0 v1 chk calls).2,
        faces := (split_commit X n c pc0 f0 e0 u0 u1 f1 v0 v1 chk calls).1.pc.F } := by
  intro calls1 P hP
  unfold split_commit at hP
  dsimp only at hP
  simp only [SplitOutcome.accepted.injEq] at hP
  obtain ⟨_, hP⟩ := hP
  subst hP
  refine ⟨le_trans (List.reduceOption_length_le _) (by simp), ?_⟩
  intro p hp
  rw [List.reduceOption_mem_iff] at hp
  have hpush : ∃ f v, split_push_to_queue X
      (X.shift_left chk.1 chk.2.1
        (X.edge_split ((pc0.mid.length : Int) - 1) (c.pc.F, c.FF, c.FFi) f0 e0)).1
      pc0.mid n f v = some p := by
    simp only [List.mem_cons, List.mem_singleton, List.not_mem_nil, or_false] at hp
    rcases hp with h | h | h | h
    all_goals
      split_ifs at h
      exact ⟨_, _, h.symm⟩
  obtain ⟨f, v, hpush⟩ := hpush
  exact split_push_spec X _ _ n f v p hpush

theorem split_attempt_ok (X : Ext) (option : RemeshOptions) (n : Nat) (c : SplitCore)
    (f0 e0 u0 u1 f1 e1 v0 v1 : Int) (r : SplitCore × SplitOutcome) (en : QEntry)
    (h : split_attempt X option n c f0 e0 u0 u1 f1 e1 v0 v1 = some r) :
    split_item_ok n { entry := en, outcome := r.2, faces := r.1.pc.F } := by
  unfold split_attempt at h
  dsimp only at h
  split at h
  · simp only [Option.some.injEq] at h
    subst h
    intro calls P hP
    cases hP
  · split at h
    · exact absurd h (by simp)
    · split_ifs at h
      · simp only [Option.some.injEq] at h
        subst h
        intro calls P hP
        cases hP
      · simp only [Option.some.injEq] at h
        subst h
        exact split_commit_ok X n c _ _ _ _ _ _ _ _ _ _ en

theorem split_body_ok (X : Ext) (option : RemeshOptions) (n : Nat) (c : SplitCore)
    (en : QEntry) (r : SplitCore × SplitOutcome) (h : split_body X option n c en = some r) :
    split_item_ok n { entry := en, outcome := r.2, faces := r.1.pc.F } := by
  unfold split_body at h
  dsimp only at h
  split_ifs at h
  all_goals first
    | (simp only [Option.some.injEq] at h
       subst h
       intro calls P hP
       cases hP)
    | exact split_attempt_ok X option n c _ _ _ _ _ _ _ _ r en h

theorem split_iter_trace (X : Ext) (option : RemeshOptions) (n : Nat) (s s1 : SplitState)
    (h : split_iter X option n s = some s1)
    (hs : ∀ it ∈ s.trace, split_item_ok n it) : ∀ it ∈ s1.trace, split_item_ok n it := by
  unfold split_iter at h
  split at h
  · simp only [Option.some.injEq] at h
    subst h
    exact hs
  · split at h
    · exact absurd h (by simp)
    · rename_i hbody
      simp only [Option.some.injEq] at h
      subst h
      intro it hit
      rcases List.mem_append.mp hit with hit | hit
      · exact hs it hit
      · simp only [List.mem_singleton] at hit
        subst hit
        exact split_body_ok X option n _ _ _ hbody

theorem wildsplit_loop_trace (X : Ext) (option : RemeshOptions) (n : Nat) :
    ∀ (fuel : Nat) (s s1 : SplitState), wildsplit_loop X option n fuel s = some s1 →
      (∀ it ∈ s.trace, split_item_ok n it) → ∀ it ∈ s1.trace, split_item_ok n it := by
  intro fuel
  induction fuel with
  | zero =>
    intro s s1 h hs
    unfold wildsplit_loop at h
    split_ifs at h
    simp only [Option.some.injEq] at h
    subst h
    exact hs
  | succ fuel ih =>
    intro s s1 h hs
    unfold wildsplit_loop at h
    split_ifs at h
    · simp only [Option.some.injEq] at h
      subst h
      exact hs
    · split at h
      · exact absurd h (by simp)
      · rename_i s2 hs2
        exact ih s2 s1 h (split_iter_trace X option n s s2 hs2 hs)

/-- C9: in a pass of `wildsplit_pass` with `n` vertices at its start, on a
face list whose corners are ids below `n` and pairwise distinct within each
face, and as long as the faces keep distinct corners during the pass: every
entry pushed by the enqueue loop and every entry pushed after an accepted
split has `u0 < u1 < n`, and an accepted split pushes at most four entries.
So no pushed entry has an endpoint with an id of `n` or more, which the
vertices created during the pass have. -/
theorem split_pushes_old_edges (X : Ext) (fuel : Nat) (pc : PrismCage) (option : RemeshOptions)
    (res : SplitResult) (h : wildsplit_pass X fuel pc option = some res)
    (hbelow : faces_below pc.mid.length pc.F = true)
    (hdist : faces_distinct pc.F = true)
    (hrun : ∀ it ∈ res.trace, faces_distinct it.faces = true) :
    (∀ en ∈ split_seed X pc.F (X.triangle_triangle_adjacency pc.F).1
        (X.triangle_triangle_adjacency pc.F).2 pc.mid,
      en.u0 < en.u1 ∧ en.u1 < (pc.mid.length : Int)) ∧
    (∀ it ∈ res.trace, ∀ calls P, it.outcome = SplitOutcome.accepted calls P →
      P.length ≤ 4 ∧ ∀ en ∈ P, en.u0 < en.u1 ∧ en.u1 < (pc.mid.length : Int)) := by
  constructor
  · intro en hen
    rw [split_seed_eq] at hen
    obtain ⟨fe, hfe, rfl, hle, _, _⟩ := flip_seed_sound X pc.F _ _ pc.mid [] en hen
    rw [mem_seed_order] at hfe
    obtain ⟨⟨h0, h1⟩, he⟩ := hfe
    have hmem := getI_mem pc.F fe.1 h0 h1
    have hne := faces_distinct_corner pc.F _ fe.2 hdist hmem he
    have hlt := faces_below_corner pc.mid.length pc.F _ fe.2 hbelow hmem he
    exact ⟨lt_of_le_of_ne (not_lt.mp hle) hne, hlt⟩
  · unfold wildsplit_pass at h
    split at h
    · exact absurd h (by simp)
    · rename_i s hs
      simp only [Option.some.injEq] at h
      subst h
      dsimp only at hrun ⊢
      intro it hit calls P hP
      have hok := wildsplit_loop_trace X option pc.mid.length fuel _ s hs
        (by intro it hit; simp [wildsplit_init] at hit) it hit calls P hP
      refine ⟨hok.1, fun en hen => ?_⟩
      obtain ⟨_, hlt, hd⟩ := hok.2 en hen
      exact ⟨hd (hrun it hit), hlt⟩

/-- C9, witness: the pass on `rect_cage` (4 vertices) splits the diagonal
`0 - 2` and pushes the edge `1 - 2` afterwards. -/
theorem split_pushes_old_edges_witness :
    ∃ res, wildsplit_pass planar_ext 20 rect_cage (sample_options [1, 1, 1, 1]) = some res ∧
      res.trace.map SplitTraceItem.entry = [(5, 1, 0, 0, 2), (3, 3, 1, 1, 2)] ∧
      ∀ it ∈ res.trace, ∀ calls P, it.outcome = SplitOutcome.accepted calls P →
        P.length ≤ 4 ∧ ∀ en ∈ P, en.u0 < en.u1 ∧ en.u1 < (rect_cage.mid.length : Int) :=
  ⟨(wildsplit_pass planar_ext 20 rect_cage (sample_options [1, 1, 1, 1])).get (by decide!),
    (Option.some_get _).symm, by decide!,
    (split_pushes_old_edges planar_ext 20 rect_cage (sample_options [1, 1, 1, 1]) _
      (Option.some_get _).symm (by decide!) (by decide!) (by decide!)).2⟩

/-! ### Termination of the flip pass -/

theorem flip_iter_core (X : Ext) (option : RemeshOptions) (s : FlipState) :
    (flip_iter X option s).core = flip_core_iter X option s.core := by
  unfold flip_iter flip_core_iter
  cases h : s.core.queue with
  | nil => simp [h]
  | cons en rest => simp

theorem flip_core_run_add (X : Ext) (option : RemeshOptions) (m n : Nat) :
    ∀ c, flip_core_run X option (m + n) c =
      (flip_core_run X option m c).bind (flip_core_run X option n) := by
  induction m with
  | zero => intro c; simp [flip_core_run]
  | succ m ih =>
    intro c
    rw [Nat.succ_add]
    simp only [flip_core_run]
    by_cases h : c.queue = []
    · simp [h]
    · simp only [h, if_false]
      exact ih _

theorem flip_core_run_prefix (X : Ext) (option : RemeshOptions) (m n : Nat) (c : FlipCore)
    (hmn : m ≤ n) (h : (flip_core_run X option n c).isSome = true) :
    (flip_core_run X option m c).isSome = true := by
  obtain ⟨d, rfl⟩ := Nat.exists_eq_add_of_le hmn
  rw [flip_core_run_add] at h
  cases hm : flip_core_run X option m c with
  | none => simp [hm] at h
  | some c1 => rfl

theorem flip_core_run_cycle (X : Ext) (option : RemeshOptions) (p : Nat) (c : FlipCore)
    (hp : 0 < p) (hc : flip_core_run X option p c = some c) :
    ∀ n, (flip_core_run X option n c).isSome = true := by
  intro n
  induction n using Nat.strong_induction_on with
  | _ n ih =>
    by_cases hn : n < p
    · exact flip_core_run_prefix X option n p c (Nat.le_of_lt hn) (by simp [hc])
    · have hn1 : n = p + (n - p) := by omega
      rw [hn1, flip_core_run_add, hc]
      exact ih (n - p) (by omega)

theorem wildflip_loop_none (X : Ext) (option : RemeshOptions) :
    ∀ (fuel : Nat) (s : FlipState),
      (flip_core_run X option (fuel + 1) s.core).isSome = true →
      wildflip_loop X option fuel s = none := by
  intro fuel
  induction fuel with
  | zero =>
    intro s h
    simp only [flip_core_run] at h
    by_cases hq : s.core.queue = []
    · simp [hq] at h
    · simp [wildflip_loop, hq]
  | succ fuel ih =>
    intro s h
    rw [flip_core_run] at h
    by_cases hq : s.core.queue = []
    · simp [hq] at h
    · simp only [hq, if_false] at h
      simp only [wildflip_loop, hq, if_false]
      apply ih
      rw [flip_iter_core]
      exact h

set_option maxRecDepth 100000 in
theorem grid_cage_cycle :
    (flip_core_run flip_ext (sample_options []) 12 (wildflip_init flip_ext grid_cage).core).isSome
      = true ∧
    (flip_core_run flip_ext (sample_options []) 12 (wildflip_init flip_ext grid_cage).core).bind
        (flip_core_run flip_ext (sample_options []) 99) =
      flip_core_run flip_ext (sample_options []) 12 (wildflip_init flip_ext grid_cage).core := by
  decide!

set_option maxRecDepth 100000 in
theorem grid_cage_energies :
    accepted_energies flip_ext (sample_options []) 111 (wildflip_init flip_ext grid_cage) =
      [(14, 14), (34, 34), (27, 25), (27, 25)] ++ List.replicate 36 (22, 22) := by
  decide!

/-- C3 (the code at the failing input): on the 3 × 2 grid `grid_cage`, with a
validator that accepts exactly the flips that keep both triangles positively
oriented and with the reference flip primitive, the dequeue loop of
`wildflip_pass` never empties the queue: the pass returns for no amount of
fuel.  After 12 iterations the loop is in a state it reaches again every 99
iterations.  The first 111 iterations accept 40 flips; listed are the energies
`(E_before, E_after)` of the valence test at each: the four flips of the first
12 iterations include the only two that lower the energy, and the 36 flips of
the recurring part are all ties. -/
theorem flip_pass_never_ends :
    (¬ ∃ fuel, (wildflip_pass flip_ext fuel grid_cage (sample_options [])).isSome = true) ∧
    accepted_energies flip_ext (sample_options []) 111 (wildflip_init flip_ext grid_cage) =
      [(14, 14), (34, 34), (27, 25), (27, 25)] ++ List.replicate 36 (22, 22) := by
  refine ⟨?_, grid_cage_energies⟩
  rintro ⟨fuel, h⟩
  obtain ⟨h12, hcyc⟩ := grid_cage_cycle
  cases hc : flip_core_run flip_ext (sample_options []) 12
      (wildflip_init flip_ext grid_cage).core with
  | none => simp [hc] at h12
  | some c =>
    rw [hc] at hcyc
    have hall := flip_core_run_cycle flip_ext (sample_options []) 99 c (by decide) hcyc
    have hrun : (flip_core_run flip_ext (sample_options []) (12 + (fuel + 1))
        (wildflip_init flip_ext grid_cage).core).isSome = true := by
      rw [flip_core_run_add, hc]
      exact hall (fuel + 1)
    have hpre := flip_core_run_prefix flip_ext (sample_options []) (fuel + 1) (12 + (fuel + 1))
      (wildflip_init flip_ext grid_cage).core (by omega) hrun
    have hnone := wildflip_loop_none flip_ext (sample_options []) fuel
      (wildflip_init flip_ext grid_cage) hpre
    unfold wildflip_pass at h
    rw [hnone] at h
    simp at h

/-! ### The enqueue loops push each edge once -/

theorem seed_order_nodup (n : Nat) : (seed_order n).Nodup := by
  unfold seed_order
  rw [List.nodup_flatMap]
  constructor
  · intro f _
    simp
  · apply List.Pairwise.imp _ (List.nodup_range n)
    intro a b hab
    simp only [Function.onFun, List.Disjoint, List.mem_cons, List.mem_singleton,
      List.not_mem_nil, or_false]
    intro x hx hy
    rcases hx with rfl | rfl | rfl <;> rcases hy with h | h | h <;>
      (simp only [Prod.mk.injEq] at h
       omega)

theorem vec3i_get_set (t : Vec3i) (e j x : Int) (hj : 0 ≤ j ∧ j < 3) (hne : j ≠ e) :
    (t.set e x).get j = t.get j := by
  unfold Vec3i.set Vec3i.get
  have hj3 : j = 0 ∨ j = 1 ∨ j = 2 := by omega
  rcases hj3 with h | h | h <;> subst h <;> split_ifs <;> simp_all

theorem modifyNth_getD {α : Type} (f : α → α) (l : List α) (n i : Nat) (d : α) (hne : i ≠ n) :
    (modifyNth f l n).getD i d = l.getD i d := by
  rw [List.getD_eq_getElem?_getD, List.getD_eq_getElem?_getD, modifyNth_getElem?, if_neg hne]

theorem modifyNth_getD_same {α : Type} (f : α → α) (l : List α) (n : Nat) (d : α)
    (hn : n < l.length) : (modifyNth f l n).getD n d = f (l.getD n d) := by
  rw [List.getD_eq_getElem?_getD, List.getD_eq_getElem?_getD, modifyNth_getElem?, if_pos rfl,
    List.getElem?_eq_getElem hn]
  rfl

theorem modifyNth_of_le {α : Type} (f : α → α) (l : List α) (n : Nat) (hn : l.length ≤ n) :
    modifyNth f l n = l := by
  induction l generalizing n with
  | nil => cases n <;> rfl
  | cons x xs ih =>
    cases n with
    | zero => simp at hn
    | succ n =>
      simp only [modifyNth, List.cons.injEq, true_and]
      exact ih n (by simpa using hn)

/-- Setting a matrix entry changes no other entry with a column among 0, 1, 2. -/
theorem matGet_matSet_ne (M : List Vec3i) (f e g j x : Int) (hj : 0 ≤ j ∧ j < 3)
    (hne : (g, j) ≠ (f, e)) : matGet (matSet M f e x) g j = matGet M g j := by
  unfold matGet matSet modifyI
  split_ifs with hf
  · rfl
  · unfold getI
    split_ifs with hg
    · rfl
    · by_cases hfg : g.toNat = f.toNat
      · have hgf : g = f := by omega
        subst hgf
        have hje : j ≠ e := by
          intro h
          exact hne (by rw [h])
        by_cases hlen : g.toNat < M.length
        · rw [modifyNth_getD_same _ _ _ _ hlen]
          exact vec3i_get_set _ e j x hj hje
        · rw [modifyNth_of_le _ _ _ (not_lt.mp hlen)]
      · rw [modifyNth_getD _ _ _ _ _ hfg]

theorem matGet_replicate_zero (n : Nat) (g j : Int) :
    matGet (List.replicate n ((0, 0, 0) : Vec3i)) g j = 0 := by
  unfold matGet getI
  have h0 : ∀ t : Vec3i, t = (0, 0, 0) → t.get j = 0 := by
    intro t ht
    subst ht
    unfold Vec3i.get
    split_ifs <;> rfl
  split_ifs
  · exact h0 _ rfl
  · apply h0
    rw [List.getD_eq_getElem?_getD]
    by_cases hlt : g.toNat < n
    · rw [List.getElem?_eq_getElem (by simpa using hlt)]
      simp
    · rw [List.getElem?_eq_none (by simpa using hlt)]
      rfl

theorem seed_entry_pos (X : Ext) (F : List Vec3i) (V : List Vec3d) (fe : Int × Int) :
    ((seed_entry X F V fe).f, (seed_entry X F V fe).e) = fe := rfl

/-- One round of the enqueue loop keeps `SeedInv`. -/
theorem seed_step_inv (X : Ext) (F FF FFi : List Vec3i) (V : List Vec3d)
    (skip : List (Int × Int)) (H : ConsistentAdjacency F FF FFi)
    (pre : List (Int × Int)) (st : List QEntry × List Vec3i) (fe : Int × Int)
    (hpre : ∀ x ∈ pre, local_edge F x.1 x.2) (hfe : local_edge F fe.1 fe.2)
    (hnew : fe ∉ pre) (inv : SeedInv X F FF FFi V skip pre st) :
    SeedInv X F FF FFi V skip (pre ++ [fe]) (flip_seed_step X F FF FFi V skip st fe) := by
  have hmono : ∀ x ∈ pre, x ∈ pre ++ [fe] := fun x hx => List.mem_append_left _ hx
  -- when nothing is pushed, the visited edge `fe` was not eligible
  have keep : (matGet F fe.1 fe.2 < matGet F fe.1 ((fe.2 + 1) % 3) →
        matGet FF fe.1 fe.2 ≠ -1 →
        (matGet F fe.1 fe.2, matGet F fe.1 ((fe.2 + 1) % 3)) ∉ skip → False) →
      SeedInv X F FF FFi V skip (pre ++ [fe]) st := by
    intro hno
    refine ⟨?_, inv.nodup, inv.flags, ?_⟩
    · intro en hen
      obtain ⟨x, hx, h⟩ := inv.sound en hen
      exact ⟨x, hmono x hx, h⟩
    · intro x hx h1 h2 h3
      rcases List.mem_append.mp hx with hx | hx
      · exact inv.complete x hx h1 h2 h3
      · simp only [List.mem_singleton] at hx
        subst hx
        exact absurd (hno h1 h2 h3) id
  unfold flip_seed_step
  dsimp only
  split_ifs with h1 h2 h3
  · apply keep
    intro hlt _ _
    rcases h1 with hgt | hflag
    · exact absurd hlt (not_lt.mpr (le_of_lt hgt))
    · obtain ⟨en, hen, hpos⟩ := inv.flags fe.1 fe.2 hfe hflag
      obtain ⟨x, hx, rfl, hxle, hxint, _⟩ := inv.sound en hen
      rcases hpos with hpos | hpos
      · rw [seed_entry_pos] at hpos
        have : fe = x := hpos
        exact hnew (this ▸ hx)
      · have hxl := hpre x hx
        obtain ⟨_, hrev⟩ := H.interior x.1 x.2 hxl hxint
        have hnd := H.nondegenerate x.1 x.2 hxl
        have h1' : fe.1 = matGet FF x.1 x.2 := congrArg Prod.fst hpos
        have h2' : fe.2 = matGet FFi x.1 x.2 := congrArg Prod.snd hpos
        rw [← h1', ← h2'] at hrev
        unfold half_edge at hrev hnd
        simp only [Prod.mk.injEq] at hrev
        dsimp only at hnd
        rw [hrev.1, hrev.2] at hlt
        have hxle' := not_lt.mp hxle
        exact hnd (le_antisymm hxle' (le_of_lt hlt))
  · apply keep
    intro _ hint _
    exact hint h2
  · apply keep
    intro _ _ hskip
    exact hskip h3
  · have hle : ¬ (matGet F fe.1 fe.2 > matGet F fe.1 ((fe.2 + 1) % 3)) :=
      fun h => h1 (Or.inl h)
    have hflag0 : ¬ matGet st.2 fe.1 fe.2 = 1 := fun h => h1 (Or.inr h)
    refine ⟨?_, ?_, ?_, ?_⟩
    · intro en hen
      rcases List.mem_cons.mp hen with rfl | hen
      · exact ⟨fe, by simp, rfl, hle, h2, h3⟩
      · obtain ⟨x, hx, h⟩ := inv.sound en hen
        exact ⟨x, hmono x hx, h⟩
    · refine List.nodup_cons.mpr ⟨?_, inv.nodup⟩
      intro hmem
      obtain ⟨x, hx, hxe, _⟩ := inv.sound _ hmem
      have : fe = x := by
        have h := congrArg (fun en : QEntry => (en.f, en.e)) hxe
        simpa [seed_entry_pos] using h
      exact hnew (this ▸ hx)
    · intro g j hgj hflag
      by_cases hA : (g, j) = (matGet FF fe.1 fe.2, matGet FFi fe.1 fe.2)
      · exact ⟨_, List.mem_cons_self _ _, Or.inr hA⟩
      · rw [matGet_matSet_ne _ _ _ _ _ _ ⟨hgj.2.2.1, hgj.2.2.2⟩ hA] at hflag
        by_cases hB : (g, j) = (fe.1, fe.2)
        · exact ⟨_, List.mem_cons_self _ _, Or.inl hB⟩
        · rw [matGet_matSet_ne _ _ _ _ _ _ ⟨hgj.2.2.1, hgj.2.2.2⟩ hB] at hflag
          obtain ⟨en, hen, h⟩ := inv.flags g j hgj hflag
          exact ⟨en, List.mem_cons_of_mem _ hen, h⟩
    · intro x hx hx1 hx2 hx3
      rcases List.mem_append.mp hx with hx | hx
      · exact List.mem_cons_of_mem _ (inv.complete x hx hx1 hx2 hx3)
      · simp only [List.mem_singleton] at hx
        subst hx
        exact List.mem_cons_self _ _

theorem seed_fold_inv (X : Ext) (F FF FFi : List Vec3i) (V : List Vec3d)
    (skip : List (Int × Int)) (H : ConsistentAdjacency F FF FFi) :
    ∀ (todo pre : List (Int × Int)) (st : List QEntry × List Vec3i),
      (pre ++ todo).Nodup → (∀ x ∈ pre ++ todo, local_edge F x.1 x.2) →
      SeedInv X F FF FFi V skip pre st →
      SeedInv X F FF FFi V skip (pre ++ todo)
        (todo.foldl (flip_seed_step X F FF FFi V skip) st) := by
  intro todo
  induction todo with
  | nil => intro pre st _ _ inv; simpa using inv
  | cons fe todo ih =>
    intro pre st hnd hloc inv
    simp only [List.foldl_cons]
    have hassoc : pre ++ fe :: todo = (pre ++ [fe]) ++ todo := by simp
    rw [hassoc] at hnd hloc ⊢
    apply ih (pre ++ [fe]) _ hnd hloc
    apply seed_step_inv X F FF FFi V skip H pre st fe
    · intro x hx
      exact hloc x (List.mem_append_left _ (List.mem_append_left _ hx))
    · exact hloc fe (List.mem_append_left _ (by simp))
    · intro hmem
      have h1 : (pre ++ [fe]).Nodup := (List.nodup_append.mp hnd).1
      have h2 := List.nodup_append.mp h1
      exact h2.2.2 hmem (by simp)
    · exact inv

theorem countP_eq_one_of_unique {α : Type} (p : α → Bool) (a : α) :
    ∀ (l : List α), l.Nodup → a ∈ l → p a = true → (∀ x ∈ l, p x = true → x = a) →
      l.countP p = 1 := by
  intro l
  induction l with
  | nil => intro _ ha; simp at ha
  | cons x xs ih =>
    intro hnd ha hpa huniq
    have hx : x ∉ xs := (List.nodup_cons.mp hnd).1
    rw [List.countP_cons]
    by_cases hax : a = x
    · subst hax
      have hzero : xs.countP p = 0 := by
        rw [List.countP_eq_zero]
        intro y hy hpy
        exact hx ((huniq y (List.mem_cons_of_mem _ hy) hpy) ▸ hy)
      rw [hzero, hpa]
      rfl
    · have hmem : a ∈ xs := by
        rcases List.mem_cons.mp ha with h | h
        · exact absurd h hax
        · exact h
      have hpx : ¬ p x = true := by
        intro h
        exact hax (huniq x (List.mem_cons_self _ _) h).symm
      rw [ih (List.nodup_cons.mp hnd).2 hmem hpa
        (fun y hy hpy => huniq y (List.mem_cons_of_mem _ hy) hpy)]
      simp [hpx]

theorem mem_skip_edges (feature_edges : List (Int × Int)) (a b : Int) (hab : a ≤ b) :
    (a, b) ∈ skip_edges feature_edges ↔ (a, b) ∈ feature_edges ∨ (b, a) ∈ feature_edges := by
  unfold skip_edges
  rw [List.mem_map]
  constructor
  · rintro ⟨p, hp, h⟩
    simp only [Prod.mk.injEq] at h
    obtain ⟨h1, h2⟩ := h
    by_cases hle : p.1 ≤ p.2
    · left
      rw [min_eq_left hle] at h1
      rw [max_eq_right hle] at h2
      have : p = (a, b) := Prod.ext h1 h2
      rw [← this]
      exact hp
    · right
      have hle2 : p.2 ≤ p.1 := le_of_lt (not_le.mp hle)
      rw [min_eq_right hle2] at h1
      rw [max_eq_left hle2] at h2
      have : p = (b, a) := Prod.ext h2 h1
      rw [← this]
      exact hp
  · rintro (h | h)
    · exact ⟨(a, b), h, by simp [min_eq_left hab, max_eq_right hab]⟩
    · exact ⟨(b, a), h, by simp [min_eq_right hab, max_eq_left hab]⟩

theorem local_edge_mem_seed_order (F : List Vec3i) (f e : Int) (h : local_edge F f e) :
    (f, e) ∈ seed_order F.length := by
  rw [mem_seed_order]
  obtain ⟨h0, h1, h2, h3⟩ := h
  exact ⟨⟨h0, h1⟩, by dsimp only; omega⟩

theorem seed_order_local_edge (F : List Vec3i) (fe : Int × Int)
    (h : fe ∈ seed_order F.length) : local_edge F fe.1 fe.2 := by
  rw [mem_seed_order] at h
  obtain ⟨⟨h0, h1⟩, h2⟩ := h
  exact ⟨h0, h1, by omega, by omega⟩

/-- The enqueue loop of the flip pass, for any skip set, on a face list with
consistent winding and correct adjacency. -/
theorem flip_seed_each_edge_once (X : Ext) (F FF FFi : List Vec3i) (V : List Vec3d)
    (feature_edges : List (Int × Int)) (H : ConsistentAdjacency F FF FFi) :
    SeedsEachEdgeOnce X F FF V (skip_edges feature_edges)
      (flip_seed X F FF FFi V feature_edges) := by
  have inv0 : SeedInv X F FF FFi V (skip_edges feature_edges) []
      ([], List.replicate F.length (0, 0, 0)) := by
    refine ⟨by simp, List.nodup_nil, ?_, by simp⟩
    intro g j _ hflag
    rw [matGet_replicate_zero] at hflag
    exact absurd hflag (by decide)
  have inv := seed_fold_inv X F FF FFi V (skip_edges feature_edges) H (seed_order F.length) []
    _ (by simpa using seed_order_nodup F.length)
    (by
      intro x hx
      exact seed_order_local_edge F x (by simpa using hx)) inv0
  simp only [List.nil_append] at inv
  -- facts about the entries, in terms of the local edge they come from
  have hmem : ∀ en, en ∈ flip_seed X F FF FFi V feature_edges ↔
      en ∈ ((seed_order F.length).foldl
        (flip_seed_step X F FF FFi V (skip_edges feature_edges))
        ([], List.replicate F.length (0, 0, 0))).1 := by
    intro en
    unfold flip_seed
    exact List.mem_reverse
  have hsound : ∀ en ∈ flip_seed X F FF FFi V feature_edges,
      ∃ x : Int × Int, local_edge F x.1 x.2 ∧ en = seed_entry X F V x ∧
        matGet F x.1 x.2 < matGet F x.1 ((x.2 + 1) % 3) ∧ matGet FF x.1 x.2 ≠ -1 ∧
        (matGet F x.1 x.2, matGet F x.1 ((x.2 + 1) % 3)) ∉ skip_edges feature_edges := by
    intro en hen
    obtain ⟨x, hx, hxe, hle, hint, hskip⟩ := inv.sound en ((hmem en).mp hen)
    have hloc := seed_order_local_edge F x hx
    have hnd := H.nondegenerate x.1 x.2 hloc
    unfold half_edge at hnd
    exact ⟨x, hloc, hxe, lt_of_le_of_ne (not_lt.mp hle) hnd, hint, hskip⟩
  have hnodup : (flip_seed X F FF FFi V feature_edges).Nodup := by
    unfold flip_seed
    exact List.nodup_reverse.mpr inv.nodup
  refine ⟨?_, ?_, ?_⟩
  · intro en hen
    obtain ⟨x, hloc, rfl, hlt, hint, hskip⟩ := hsound en hen
    exact ⟨hloc, rfl, rfl, hlt, hint, hskip, rfl⟩
  · intro f e hloc hint hskip
    -- the local edge with the directed edge `(min, max)`
    have hstar : ∃ x : Int × Int, local_edge F x.1 x.2 ∧
        matGet F x.1 x.2 = min (matGet F f e) (matGet F f ((e + 1) % 3)) ∧
        matGet F x.1 ((x.2 + 1) % 3) = max (matGet F f e) (matGet F f ((e + 1) % 3)) ∧
        matGet F x.1 x.2 < matGet F x.1 ((x.2 + 1) % 3) ∧ matGet FF x.1 x.2 ≠ -1 := by
      have hnd := H.nondegenerate f e hloc
      unfold half_edge at hnd
      dsimp only at hnd
      rcases lt_or_gt_of_ne hnd with hlt | hgt
      · exact ⟨(f, e), hloc, (min_eq_left (le_of_lt hlt)).symm,
          (max_eq_right (le_of_lt hlt)).symm, hlt, hint⟩
      · obtain ⟨hloc2, hrev⟩ := H.interior f e hloc hint
        unfold half_edge at hrev
        simp only [Prod.mk.injEq] at hrev
        refine ⟨(matGet FF f e, matGet FFi f e), hloc2, ?_, ?_, ?_, ?_⟩
        · rw [hrev.1]
          exact (min_eq_right (le_of_lt hgt)).symm
        · rw [hrev.2]
          exact (max_eq_left (le_of_lt hgt)).symm
        · rw [hrev.1, hrev.2]
          exact hgt
        · intro hb
          have := H.boundary _ _ hloc2 hb f e hloc
          apply this
          unfold half_edge
          simp only [Prod.mk.injEq]
          exact ⟨hrev.2.symm, hrev.1.symm⟩
    obtain ⟨x, hxloc, hx0, hx1, hxlt, hxint⟩ := hstar
    have hxin : seed_entry X F V x ∈ flip_seed X F FF FFi V feature_edges := by
      rw [hmem]
      apply inv.complete x (local_edge_mem_seed_order F x.1 x.2 hxloc) hxlt hxint
      rw [hx0, hx1]
      exact hskip
    apply countP_eq_one_of_unique _ (seed_entry X F V x) _ hnodup hxin
    · simp only [decide_eq_true_eq]
      exact ⟨hx0, hx1⟩
    · intro en hen hp
      simp only [decide_eq_true_eq] at hp
      obtain ⟨y, hyloc, rfl, _, _, _⟩ := hsound en hen
      have hxy : y.1 = x.1 ∧ y.2 = x.2 := by
        apply H.once y.1 y.2 x.1 x.2 hyloc hxloc
        unfold half_edge
        simp only [Prod.mk.injEq]
        exact ⟨hp.1.trans hx0.symm, hp.2.trans hx1.symm⟩
      have : y = x := Prod.ext hxy.1 hxy.2
      rw [this]
  · intro f e hloc hb
    rw [List.countP_eq_zero]
    intro en hen hp
    simp only [decide_eq_true_eq] at hp
    obtain ⟨y, hyloc, rfl, _, hyint, _⟩ := hsound en hen
    have hp1 : matGet F y.1 y.2 = min (matGet F f e) (matGet F f ((e + 1) % 3)) := hp.1
    have hp2 : matGet F y.1 ((y.2 + 1) % 3) = max (matGet F f e) (matGet F f ((e + 1) % 3)) :=
      hp.2
    by_cases hle : matGet F f e ≤ matGet F f ((e + 1) % 3)
    · rw [min_eq_left hle] at hp1
      rw [max_eq_right hle] at hp2
      have hyf : y.1 = f ∧ y.2 = e := by
        apply H.once y.1 y.2 f e hyloc hloc
        unfold half_edge
        simp only [Prod.mk.injEq]
        exact ⟨hp1, hp2⟩
      rw [hyf.1, hyf.2] at hyint
      exact hyint hb
    · have hle2 := le_of_lt (not_le.mp hle)
      rw [min_eq_right hle2] at hp1
      rw [max_eq_left hle2] at hp2
      apply H.boundary f e hloc hb y.1 y.2 hyloc
      unfold half_edge
      simp only [Prod.mk.injEq]
      exact ⟨hp1, hp2⟩

/-- C10: on a face list with consistent winding and adjacency tables that are
correct for it, the enqueue loop of `wildflip_pass` pushes exactly one entry
for every undirected interior edge that is not a feature edge, with
`u0 < u1`, `F[f][e] = u0`, `F[f][(e + 1) % 3] = u1` and the mid-layer
distance of the endpoints as key, and no entry for a boundary edge or a
feature edge; the enqueue loop of `wildsplit_pass` does the same without the
feature edge exclusion.  The skip set holds `(a, b)` with `a ≤ b` exactly when
`(a, b)` or `(b, a)` is listed as a feature edge. -/
theorem seeding_pushes_each_edge_once (X : Ext) (F FF FFi : List Vec3i) (V : List Vec3d)
    (feature_edges : List (Int × Int)) (H : ConsistentAdjacency F FF FFi) :
    SeedsEachEdgeOnce X F FF V (skip_edges feature_edges)
      (flip_seed X F FF FFi V feature_edges) ∧
    SeedsEachEdgeOnce X F FF V [] (split_seed X F FF FFi V) ∧
    (∀ a b : Int, a ≤ b →
      ((a, b) ∈ skip_edges feature_edges ↔
        (a, b) ∈ feature_edges ∨ (b, a) ∈ feature_edges)) := by
  refine ⟨flip_seed_each_edge_once X F FF FFi V feature_edges H, ?_,
    fun a b hab => mem_skip_edges feature_edges a b hab⟩
  rw [split_seed_eq]
  exact flip_seed_each_edge_once X F FF FFi V [] H

/-- The four conditions of `ConsistentAdjacency`, checked over the list of
local edges. -/
theorem consistent_of_checks (F FF FFi : List Vec3i)
    (h1 : ∀ x ∈ seed_order F.length, (half_edge F x.1 x.2).1 ≠ (half_edge F x.1 x.2).2)
    (h2 : ((seed_order F.length).map (fun x => half_edge F x.1 x.2)).Nodup)
    (h3 : ∀ x ∈ seed_order F.length, matGet FF x.1 x.2 ≠ -1 →
      (matGet FF x.1 x.2, matGet FFi x.1 x.2) ∈ seed_order F.length ∧
      half_edge F (matGet FF x.1 x.2) (matGet FFi x.1 x.2) =
        ((half_edge F x.1 x.2).2, (half_edge F x.1 x.2).1))
    (h4 : ∀ x ∈ seed_order F.length, matGet FF x.1 x.2 = -1 →
      ∀ y ∈ seed_order F.length,
        half_edge F y.1 y.2 ≠ ((half_edge F x.1 x.2).2, (half_edge F x.1 x.2).1)) :
    ConsistentAdjacency F FF FFi := by
  refine ⟨?_, ?_, ?_, ?_⟩
  · intro f e hloc
    exact h1 (f, e) (local_edge_mem_seed_order F f e hloc)
  · intro f e g j hfe hgj heq
    have hinj := List.inj_on_of_nodup_map h2 (local_edge_mem_seed_order F f e hfe)
      (local_edge_mem_seed_order F g j hgj) heq
    simp only [Prod.mk.injEq] at hinj
    exact hinj
  · intro f e hloc hint
    obtain ⟨hm, hrev⟩ := h3 (f, e) (local_edge_mem_seed_order F f e hloc) hint
    exact ⟨seed_order_local_edge F _ hm, hrev⟩
  · intro f e hloc hb g j hgj
    exact h4 (f, e) (local_edge_mem_seed_order F f e hloc) hb (g, j)
      (local_edge_mem_seed_order F g j hgj)

theorem strip_cage_consistent :
    ConsistentAdjacency strip_cage.F (ref_adjacency strip_cage.F).1
      (ref_adjacency strip_cage.F).2 :=
  consistent_of_checks _ _ _ (by decide!) (by decide!) (by decide!) (by decide!)

/-- C10, witness: the strip of four triangles with the feature edge `2 - 5`. -/
theorem seeding_pushes_each_edge_once_witness :
    SeedsEachEdgeOnce flip_ext strip_cage.F (ref_adjacency strip_cage.F).1 strip_cage.mid
      (skip_edges strip_cage.feature_edges)
      (flip_seed flip_ext strip_cage.F (ref_adjacency strip_cage.F).1
        (ref_adjacency strip_cage.F).2 strip_cage.mid strip_cage.feature_edges) :=
  (seeding_pushes_each_edge_once flip_ext strip_cage.F (ref_adjacency strip_cage.F).1
    (ref_adjacency strip_cage.F).2 strip_cage.mid strip_cage.feature_edges
    strip_cage_consistent).1

end prism
